import Mathlib

/-!
Verification development for the mastermind solver client
(src/task1/mastermind/client.c).

The C program is shallowly embedded below.  Machine integers (uint8_t,
uint16_t) are modelled as `Nat`, with an explicit `% 256` / `% 65536` or
an explicit bit mask exactly at the points where the C program stores
into a fixed-width object and the value could exceed the width.
Intrusive doubly-linked lists (`perm_list_t`) are modelled as Lean
lists kept in the same order (append at the tail, splice-out =
`eraseIdx`); the `combination_list_t` sibling chain reached from a
`first_child` pointer is modelled as a `List CombNode`.

The arbiter (the remote server) is modelled as an oracle
`arb : Nat → Nat → Nat`: `arb round guess` is the response byte the
server sends for the round counter value `round` and the transmitted
16-bit `guess`.  Reading one byte from the wire is `arb round guess % 256`.
C functions that loop with non-structural termination are written with
an explicit fuel that provably exceeds any reachable iteration count;
the fuel-exhaustion branches are unreachable for the inputs the program
produces and are noted where they occur.
-/

/-- SLOTS constant of client.c. -/
def SLOTS : Nat := 5

/-- COLORS constant of client.c (1 << COLOR_WIDTH). -/
def COLORS : Nat := 8

/-- Macro RED(resp): bits 0-2 of a response byte. -/
def RED (resp : Nat) : Nat := resp &&& 0x7

/-- Macro WHITE(resp): bits 3-5 of a response byte. -/
def WHITE (resp : Nat) : Nat := (resp &&& (0x7 <<< 3)) >>> 3

/-- Macro TOTAL(resp) = RED(resp) + WHITE(resp). -/
def TOTAL (resp : Nat) : Nat := RED resp + WHITE resp

/-- Macro RESPONSE_ERROR(resp): bits 6-7 of a response byte. -/
def RESPONSE_ERROR (resp : Nat) : Nat := resp >>> 6

/-- GAME_ERROR_BIT: bit 7 of the uint8_t value returned by start_game. -/
def GAME_ERROR_BIT : Nat := 128

/-- Macro RETURN_ERROR(err) = err | GAME_ERROR_BIT. -/
def RETURN_ERROR (err : Nat) : Nat := err ||| GAME_ERROR_BIT

/-- Macro IS_ERROR(err): tests the GAME_ERROR_BIT. -/
def IS_ERROR (err : Nat) : Bool := err &&& GAME_ERROR_BIT ≠ 0

/-- ALL_SLOTS = (uint8_t)~(0x7 << SLOTS) = 0b00011111. -/
def ALL_SLOTS : Nat := 31

/-- The XOR loop of compute_parity: `n` rounds of
`parity ^= p & 1; p >>= 1`. -/
def parityFold : Nat → Nat → Nat → Nat
  | 0, _, parity => parity
  | n + 1, p, parity => parityFold n (p >>> 1) (parity ^^^ (p &&& 1))

/-- compute_parity: clear bit 15 of the 16-bit request, xor bits 0..14
of the original value, store the parity in bit 15. -/
def compute_parity (req : Nat) : Nat :=
  (req &&& 0x7fff) ||| (parityFold 15 req 0 <<< 15)

/-- The store performed by add_color once the bounds check passed:
clear the 3-bit field of `position`, or the color in (uint16_t ops). -/
def addColorStore (req color position : Nat) : Nat :=
  (req &&& (0xffff ^^^ (0x7 <<< (position * 3)))) ||| (color <<< (position * 3))

/-- add_color: fails (returns -1 in C, `none` here) if position >= SLOTS. -/
def add_color (req color position : Nat) : Option Nat :=
  if position ≥ SLOTS then none else some (addColorStore req color position)

/-- Loop body of init_request over the colors array, with the running
slot index. -/
def initRequestGo : List Nat → Nat → Nat → Option Nat
  | [], _, req => some req
  | c :: cs, i, req =>
    match add_color req c i with
    | none => none
    | some r => initRequestGo cs (i + 1) r

/-- init_request: clear the request, add each color of the array at
its index. -/
def init_request (colors : List Nat) : Option Nat := initRequestGo colors 0 0

/-- generate_request: compute the parity bit, then split the 16-bit
request into the 2-byte send buffer, low byte first.  Returns
(buffer, updated request register). -/
def generate_request (req : Nat) : List Nat × Nat :=
  let r := compute_parity req
  ([r &&& (0xffff ^^^ (0xff <<< 8)), r >>> 8], r)

/-- calculate_set_bits: number of set bits of `num` among the low
`length` bits. -/
def calculate_set_bits : Nat → Nat → Nat
  | _, 0 => 0
  | num, l + 1 => (num &&& 1) + calculate_set_bits (num >>> 1) l

/-- The while loop of compute_combination.  `c` is the current
candidate (already the incremented value); test first, then
`c++ (uint8_t); if (c > mask) return 0`.  The fuel only bounds the
loop; 300 exceeds the at most 288 iterations any 8-bit input can
produce before the loop returns (for mask = 255 and count > 5 the C
loop would not terminate; that input is never produced by the
program). -/
def combGo (mask count : Nat) : Nat → Nat → Nat
  | 0, _ => 0
  | fuel + 1, c =>
    if c &&& mask = c ∧ calculate_set_bits c SLOTS = count then c
    else
      let c' := (c + 1) % 256
      if c' > mask then 0 else combGo mask count fuel c'

/-- compute_combination: starting from `last_combination + 1` (uint8_t
increment), find the next value that fits `mask` and has `count` set
bits among its low 5 bits; 0 if the candidate overruns the mask. -/
def compute_combination (last_combination mask count : Nat) : Nat :=
  combGo mask count 300 ((last_combination + 1) % 256)

/-- One pass of compare_perm_equal_pos: compare `n` 3-bit slots. -/
def comparePermGo : Nat → Nat → Nat → Nat
  | 0, _, _ => 0
  | n + 1, c1, c2 =>
    (if c1 &&& 0x7 = c2 &&& 0x7 then 1 else 0) + comparePermGo n (c1 >>> 3) (c2 >>> 3)

/-- compare_perm_equal_pos: how many of the 5 slots hold the same
color in both combinations. -/
def compare_perm_equal_pos (cmb1 cmb2 : Nat) : Nat := comparePermGo SLOTS cmb1 cmb2

/-- Inner while loop of find_best_perm: `true` iff the candidate
matches every processed guess (combination, red) in exactly `red`
slots. -/
def perm_matches : Nat → List (Nat × Nat) → Bool
  | _, [] => true
  | p, q :: qs => if compare_perm_equal_pos p q.1 = q.2 then perm_matches p qs else false

/-- find_best_perm: scan the candidate list in order, return the first
node consistent with every processed guess.  The C function returns
the node pointer; node identity is modelled as the index into the
candidate list. -/
def find_best_perm : List Nat → List (Nat × Nat) → Option Nat
  | [], _ => none
  | p :: ps, processed =>
    if perm_matches p processed then some 0
    else (find_best_perm ps processed).map (· + 1)

/-- combination_list_t node.  The C node's `first_child` pointer starts
an intrusive sibling chain linked by `next`; that chain is modelled as
the `children` list (empty list = NULL first_child). -/
inductive CombNode where
  | mk (color next_color mask combination : Nat) (children : List CombNode)

/-- Field accessor: color. -/
def CombNode.color : CombNode → Nat
  | .mk c _ _ _ _ => c

/-- Field accessor: next_color. -/
def CombNode.next_color : CombNode → Nat
  | .mk _ n _ _ _ => n

/-- Field accessor: mask (positions still free after this node). -/
def CombNode.mask : CombNode → Nat
  | .mk _ _ m _ _ => m

/-- Field accessor: combination (positions this color occupies). -/
def CombNode.combination : CombNode → Nat
  | .mk _ _ _ cb _ => cb

/-- Field accessor: children (the sibling chain below first_child). -/
def CombNode.children : CombNode → List CombNode
  | .mk _ _ _ _ ch => ch

/-- Result of one build_combination_list call, seen from its caller.
`attach chain` is the normal exit that stores the chain head into
`*parent` / `(*parent)->first_child`; `early n` are the two `return`
statements taken on an empty mask or an exhausted first combination,
which leave the caller's `first_child` untouched (only the root call,
which stores `self` into `*parent` on entry, observes the node `n`). -/
inductive BuildR where
  | attach (chain : List CombNode)
  | early (node : CombNode)

/-- The `for (i = next_color; i < COLORS; ++i) if (possible[i]) break`
search for the next color to branch on. -/
def firstPossible (possible : List Nat) : Nat → Nat → Option Nat
  | 0, _ => none
  | fuel + 1, i =>
    if i < COLORS then
      if possible.getD i 0 ≠ 0 then some i else firstPossible possible fuel (i + 1)
    else none

/-- The caller-side cleanup after a recursive build: a stored
first_child whose head has combination 0 is freed and the pointer
reset to NULL (which drops the whole chain). -/
def cleanupChain : List CombNode → List CombNode
  | [] => []
  | n :: rest => if n.combination = 0 then [] else n :: rest

/-- Sibling insertion controlled by `entropy`: odd inserts before the
current head (and the head pointer moves), even inserts right after
the head. -/
def entropyInsert (entropy : Nat) (sib : CombNode) : List CombNode → List CombNode
  | [] => [sib]
  | h :: t => if entropy % 2 = 1 then sib :: h :: t else h :: sib :: t

/-- The sibling while loop of build_combination_list: keep asking
compute_combination for the next mask; each hit becomes a sibling node
(children built when i < COLORS-1 and its free mask is non-empty),
inserted by `entropyInsert`.  `buildChild` is the recursive call on
the sibling's free mask, already followed by `cleanupChain`.  Fuel 32
covers the at most 31 masks of a 5-bit space. -/
def sibLoop (pMask i needed mask : Nat) (buildChild : Nat → List CombNode) :
    Nat → Nat → Nat → List CombNode → List CombNode
  | 0, _, _, chain => chain
  | fuel + 1, comb, entropy, chain =>
    let c' := compute_combination comb mask needed
    if c' = 0 then chain
    else
      let sMask := (pMask &&& (255 ^^^ c')) &&& 31
      let children := if i < COLORS - 1 ∧ sMask ≠ 0 then buildChild sMask else []
      let sib := CombNode.mk i (i + 1) sMask c' children
      sibLoop pMask i needed mask buildChild fuel c' (entropy + 1) (entropyInsert entropy sib chain)

/-- build_combination_list.  `pMask` is `(*parent)->mask`, `nextColor`
is `(*parent)->next_color`, `initMask` is the mask the freshly
allocated `self` starts with (31 for the root, 0 for recursive calls).
The fuel decreases at each recursion into the next color; 9 exceeds
the 8 colors.  Models data: `(((uint8_t)~0) >> (COLORS - needed)) - 1`
is an 8-bit decrement, hence the `+ 255 % 256`. -/
def buildCore (possible : List Nat) : Nat → Nat → Nat → Nat → BuildR
  | 0, _, _, initMask => .early (CombNode.mk 0 0 initMask 0 [])
  | fuel + 1, pMask, nextColor, initMask =>
    match firstPossible possible 8 nextColor with
    | none => .attach [CombNode.mk 0 0 initMask 0 []]
    | some i =>
      let pv := possible.getD i 0
      let needed := pv >>> SLOTS
      let comb0 := ((255 >>> (COLORS - needed)) + 255) % 256
      let mask := (pv &&& 31) &&& pMask
      if mask = 0 then .early (CombNode.mk i (i + 1) initMask 0 [])
      else
        let c1 := compute_combination comb0 mask needed
        if c1 = 0 then .early (CombNode.mk i (i + 1) initMask 0 [])
        else
          let sMask := (pMask &&& (255 ^^^ c1)) &&& 31
          let buildChild : Nat → List CombNode := fun m =>
            match buildCore possible fuel m (i + 1) 0 with
            | .early _ => []
            | .attach ch => cleanupChain ch
          let children := if i < COLORS - 1 ∧ sMask ≠ 0 then buildChild sMask else []
          let self := CombNode.mk i (i + 1) sMask c1 children
          .attach (sibLoop pMask i needed mask buildChild 32 c1 1 [self])

/-- The root call `build_combination_list(info, &list)` with
`list == NULL`: the root self starts with mask 31 and next_color 0 and
is stored into `*parent` on entry, so even the early returns leave the
root chain in place. -/
def build_combination_list (possible : List Nat) : List CombNode :=
  match buildCore possible 9 31 0 31 with
  | .attach ch => ch
  | .early n => [n]

/-- The j-loop of process_combinations: for each of the 5 slots, if the
combination has the bit, set the node's color there in the working
guess. -/
def setColorsGo (color : Nat) : Nat → Nat → Nat → Nat → Nat
  | 0, _, guess, _ => guess
  | r + 1, j, guess, comb =>
    let guess' := if comb &&& 0x1 ≠ 0 then addColorStore guess color j else guess
    setColorsGo color r (j + 1) guess' (comb >>> 1)

mutual
/-- process_combinations on one node: set the node's color at its
combination positions in the working guess; recurse into the children
with the accumulated popcount, or, at a leaf, append the working guess
to the candidate list when all 5 slots are assigned. -/
def processNode (guess counter : Nat) (acc : List Nat) : CombNode → List Nat
  | .mk color _ _ comb children =>
    let i := calculate_set_bits comb SLOTS
    let g' := setColorsGo color 5 0 guess comb
    match children with
    | [] => if counter + i = SLOTS then acc ++ [g'] else acc
    | c :: cs => processChain g' (counter + i) acc (c :: cs)

/-- process_combinations along a sibling chain: each sibling starts
from the same (restored) working guess. -/
def processChain (guess counter : Nat) (acc : List Nat) : List CombNode → List Nat
  | [] => acc
  | n :: rest => processChain guess counter (processNode guess counter acc n) rest
end

/-- result_t of client.c. -/
structure result_t where
  red : Nat
  white : Nat
  total : Nat
  real_hits : Nat
deriving Repr, DecidableEq

/-- gameinfo_t of client.c, restricted to the fields the game logic
reads or writes (the socket fd and the transient 2-byte send buffer
belong to the transport).  `processed` keeps (combination, red) pairs
in append order; `first_perm` keeps candidate combinations in list
order. -/
structure gameinfo_t where
  guess : Nat
  error : Nat
  round : Nat
  result0 : result_t
  result1 : result_t
  possible : List Nat
  first_perm : List Nat
  processed : List (Nat × Nat)
deriving Repr, DecidableEq

/-- info->partitions[i] as set up by start_game. -/
def partitions : Nat → List Nat
  | 0 => [0, 0, 1, 2, 3]
  | _ => [4, 4, 5, 6, 7]

/-- Read info->result[i]. -/
def getResult (info : gameinfo_t) : Nat → result_t
  | 0 => info.result0
  | _ => info.result1

/-- commit_guess writing red/white/total through its result pointer
into info->result[i] (real_hits is not written by commit_guess). -/
def setResultRWT (info : gameinfo_t) (i : Nat) (res : result_t) : gameinfo_t :=
  if i = 0 then
    { info with result0 := { res with real_hits := info.result0.real_hits } }
  else
    { info with result1 := { res with real_hits := info.result1.real_hits } }

/-- Direct stores of red/white/total constants into info->result[i]
(the partition-degeneracy branches of analyse_partitions). -/
def setResultVals (info : gameinfo_t) (i red white total : Nat) : gameinfo_t :=
  if i = 0 then
    { info with result0 := { info.result0 with red := red, white := white, total := total } }
  else
    { info with result1 := { info.result1 with red := red, white := white, total := total } }

/-- info->result[i].real_hits += t  (uint8_t store). -/
def addRealHits (info : gameinfo_t) (i t : Nat) : gameinfo_t :=
  if i = 0 then
    { info with result0 := { info.result0 with real_hits := (info.result0.real_hits + t) % 256 } }
  else
    { info with result1 := { info.result1 with real_hits := (info.result1.real_hits + t) % 256 } }

/-- Read info->possible[k]. -/
def getPoss (info : gameinfo_t) (k : Nat) : Nat := info.possible.getD k 0

/-- Write info->possible[k]. -/
def setPoss (info : gameinfo_t) (k v : Nat) : gameinfo_t :=
  { info with possible := info.possible.set k v }

/-- memset(&info->possible[start], 0, n). -/
def clearPossible : gameinfo_t → Nat → Nat → gameinfo_t
  | info, _, 0 => info
  | info, start, n + 1 => clearPossible (setPoss info start 0) (start + 1) n

/-- commit_guess: bump the round counter (uint8_t), build the request
from the partition colors if one is given, set the parity bit (in
place, through generate_request), send, read one response byte from
the arbiter, record error/result, append (transmitted guess, red) to
the processed list, then return the error (flagged), the round on a
win, or 0.  The `init_request` failure branch calls bail_out and never
returns; every call site passes exactly SLOTS colors, so it is
unreachable and modelled by `getD 0`. -/
def commit_guess (arb : Nat → Nat → Nat) (partition : Option (List Nat))
    (info : gameinfo_t) : Nat × result_t × gameinfo_t :=
  let round' := (info.round + 1) % 256
  let g0 := match partition with
            | some cols => (init_request cols).getD 0
            | none => info.guess
  let gT := (generate_request g0).2
  let resp := arb round' gT % 256
  let err := RESPONSE_ERROR resp
  let res : result_t := ⟨RED resp, WHITE resp, TOTAL resp, 0⟩
  let info' := { info with
                 round := round', guess := gT, error := err,
                 processed := info.processed ++ [(gT, RED resp)] }
  let ret := if err > 0 then RETURN_ERROR err
             else if res.red = SLOTS then round' else 0
  (ret, res, info')

/-- The for loop of analyse_partitions with its `skip` flag: probe
partition i, store the result into info->result[i], return on a
nonzero commit result; on total == SLOTS force the complementary
result to {0,0,0} and clear its 4 possible entries, on total == 0
force the complementary result to total 5 / red 1 / white 0 and clear
partition i's 4 possible entries; either case ends the loop.  Fuel 3
exceeds the two iterations. -/
def partitionsLoop (arb : Nat → Nat → Nat) : Nat → Nat → Bool → gameinfo_t → Nat × gameinfo_t
  | 0, _, _, info => (0, info)
  | fuel + 1, i, skip, info =>
    if i < 2 ∧ skip = false then
      let j := (i + 1) % 2
      let (ret, res, info₁) := commit_guess arb (some (partitions i)) info
      let info₂ := setResultRWT info₁ i res
      if ret ≠ 0 then (ret, info₂)
      else if (getResult info₂ i).total = SLOTS then
        let infoA := setResultVals info₂ j 0 0 0
        partitionsLoop arb fuel (i + 1) true (clearPossible infoA (j * 4) 4)
      else if (getResult info₂ i).total = 0 then
        let infoA := setResultVals info₂ j 1 0 5
        partitionsLoop arb fuel (i + 1) true (clearPossible infoA (i * 4) 4)
      else partitionsLoop arb fuel (i + 1) skip info₂
    else (0, info)

/-- analyse_partitions: run the 2-iteration partition loop from i = 0
with skip clear. -/
def analyse_partitions (arb : Nat → Nat → Nat) (info : gameinfo_t) : Nat × gameinfo_t :=
  partitionsLoop arb 3 0 false info

/-- The inner color loop of analyse_colors for partition `i`: probe
color `k` as a monochrome guess, `cnt` probes remaining (the loop
visits colors i*4, i*4+1, i*4+2, so cnt starts at 3 and 3 - cnt is the
loop index j; the memset on a break clears `cnt` entries starting at
k + 1, i.e. up to color i*4+3).  Returns (early return value if any,
found, running total, state). -/
def colorProbe (arb : Nat → Nat → Nat) (i : Nat) :
    Nat → Nat → Nat → Nat → gameinfo_t → Option Nat × Nat × Nat × gameinfo_t
  | 0, _, found, total, info => (none, found, total, info)
  | cnt + 1, k, found, total, info =>
    let (ret, res, info₁) := commit_guess arb (some [k, k, k, k, k]) info
    if ret ≠ 0 then (some ret, found, total, info₁)
    else if res.total = 0 then
      colorProbe arb i cnt (k + 1) found total (setPoss info₁ k 0)
    else
      let total' := (total + res.total) % 256
      let info₂ := addRealHits info₁ i res.total
      let info₃ := setPoss info₂ k ((getPoss info₂ k ||| (res.total <<< SLOTS)) % 256)
      let found' := (found + 1) % 256
      if found' = (getResult info₃ i).total ∨ total' = SLOTS ∨
         (i = 0 ∧ total' + (getResult info₃ 1).total = SLOTS) then
        (none, found', total', clearPossible info₃ (k + 1) (cnt + 1))
      else colorProbe arb i cnt (k + 1) found' total' info₃

/-- One iteration of the outer partition loop of analyse_colors:
partitions whose recorded total is 0 are skipped; otherwise the three
first colors are probed and `last_color_missing[i]` is set when fewer
colors were found than the partition's recorded total. -/
def colorPartition (arb : Nat → Nat → Nat) (i total : Nat) (info : gameinfo_t) :
    Option Nat × Nat × Bool × gameinfo_t :=
  if (getResult info i).total > 0 then
    match colorProbe arb i 3 (i * 4) 0 total info with
    | (some ret, _, _, info') => (some ret, total, false, info')
    | (none, found, total', info') =>
      (none, total', decide (found < (getResult info' i).total), info')
  else (none, total, false, info)

/-- The tail of analyse_colors when total < SLOTS: the partition
chosen by last_color_missing[0] takes the remainder SLOTS - total in
its 4th color (index i*4+3); `5 - total = 0` is the C `SLOTS - total
== 0` int test (for total > 5, which no consistent arbiter produces,
the C shift of a negative value is undefined and this model truncates
the subtraction at 0). -/
def remainderFinish (info : gameinfo_t) (i total : Nat) : gameinfo_t :=
  let info' := if 5 - total = 0 then setPoss info (i * 4 + 3) 0
               else setPoss info (i * 4 + 3)
                      ((getPoss info (i * 4 + 3) ||| ((5 - total) <<< SLOTS)) % 256)
  addRealHits info' i (5 - total)

/-- analyse_colors: probe the first three colors of each non-skipped
partition, then resolve the unprobed 4th colors: if both partitions
miss their 4th color, probe color 7 once; the partition that still
misses one (partition 0 if its flag is set, else partition 1) takes
the remainder; when the loop already accounted for all 5, clear both
4th colors. -/
def analyse_colors (arb : Nat → Nat → Nat) (info : gameinfo_t) : Nat × gameinfo_t :=
  match colorPartition arb 0 0 info with
  | (some ret, _, _, info') => (ret, info')
  | (none, t0, lcm0, info0) =>
    match colorPartition arb 1 t0 info0 with
    | (some ret, _, _, info') => (ret, info')
    | (none, t1, lcm1, info1) =>
      if t1 < SLOTS then
        if lcm0 then
          if lcm1 then
            let (ret, res, infoA) := commit_guess arb (some [7, 7, 7, 7, 7]) info1
            if ret ≠ 0 then (ret, infoA)
            else
              let t2 := (t1 + res.total) % 256
              let infoB := addRealHits infoA 1 res.total
              let infoC := setPoss infoB 7 ((getPoss infoB 7 ||| (res.total <<< SLOTS)) % 256)
              (0, remainderFinish infoC 0 t2)
          else (0, remainderFinish info1 0 t1)
        else (0, remainderFinish info1 1 t1)
      else (0, setPoss (setPoss info1 3 0) 7 0)

/-- The `red == 0` rule of analyse_possible for partition i, acting on
the possible array: for each slot j, the color the partition guess
held at slot j loses position bit j (guarded by the entry being
non-zero). -/
def possibleRuleZero (ps : List Nat) (i : Nat) : List Nat :=
  (List.range SLOTS).foldl
    (fun acc j =>
      let c := (partitions i).getD j 0
      if acc.getD c 0 ≠ 0 then acc.set c (acc.getD c 0 &&& (255 ^^^ (1 <<< j))) else acc)
    ps

/-- First pass of the `red == real_hits` rule: each partition color
keeps only its count field (possible[c] &= 0x7 << SLOTS). -/
def possibleRuleAllA (ps : List Nat) (i : Nat) : List Nat :=
  (List.range SLOTS).foldl
    (fun acc j =>
      let c := (partitions i).getD j 0
      acc.set c (acc.getD c 0 &&& (0x7 <<< SLOTS)))
    ps

/-- Second pass of the `red == real_hits` rule: each partition color
that still has a non-zero entry gets exactly the slot bits it held in
the partition probe. -/
def possibleRuleAllB (ps : List Nat) (i : Nat) : List Nat :=
  (List.range SLOTS).foldl
    (fun acc j =>
      let c := (partitions i).getD j 0
      if acc.getD c 0 ≠ 0 then acc.set c (acc.getD c 0 ||| (1 <<< j)) else acc)
    ps

/-- Per-partition body of analyse_possible (only the possible array is
written). -/
def possiblePart (info : gameinfo_t) (i : Nat) : gameinfo_t :=
  if (getResult info i).red = 0 then { info with possible := possibleRuleZero info.possible i }
  else if (getResult info i).red = (getResult info i).real_hits then
    { info with possible := possibleRuleAllB (possibleRuleAllA info.possible i) i }
  else info

/-- analyse_possible: apply the two deduction rules to partition 0,
then to partition 1. -/
def analyse_possible (info : gameinfo_t) : gameinfo_t :=
  possiblePart (possiblePart info 0) 1

/-- The while(1) loop of analyse_combinations.  `idx` is the index of
`curr` in the candidate list (the first iteration starts at
`info->first_perm`, index 0).  Submit the candidate, return a nonzero
commit result, otherwise splice the candidate out of the list and move
to find_best_perm's pick.  `none` is bail_out (find_best_perm returned
NULL, or — only in the model — the fuel ran out; each iteration
shortens the list by one, so `length + 1` fuel can never run out, and
an empty candidate list on entry is the C null dereference). -/
def combLoop (arb : Nat → Nat → Nat) : Nat → Nat → gameinfo_t → Option (Nat × gameinfo_t)
  | 0, _, _ => none
  | fuel + 1, idx, info =>
    match info.first_perm.get? idx with
    | none => none
    | some comb =>
      let (ret, _res, info₁) := commit_guess arb none { info with guess := comb }
      if ret ≠ 0 then some (ret, info₁)
      else
        let info₂ := { info₁ with first_perm := info₁.first_perm.eraseIdx idx }
        match find_best_perm info₂.first_perm info₂.processed with
        | none => none
        | some idx' => combLoop arb fuel idx' info₂

/-- analyse_combinations: zero the working guess, build the
combination tree, generate the candidate list from it, then run the
candidate loop starting at the head of the list. -/
def analyse_combinations (arb : Nat → Nat → Nat) (info : gameinfo_t) :
    Option (Nat × gameinfo_t) :=
  let chain := build_combination_list info.possible
  let perms := processChain 0 0 info.first_perm chain
  combLoop arb (perms.length + 1) 0 { info with guess := 0, first_perm := perms }

/-- The gameinfo_t produced by start_game before the first phase:
everything zeroed, all 8 colors possible at all 5 slots. -/
def initial_info : gameinfo_t :=
  { guess := 0, error := 0, round := 0,
    result0 := ⟨0, 0, 0, 0⟩, result1 := ⟨0, 0, 0, 0⟩,
    possible := [31, 31, 31, 31, 31, 31, 31, 31],
    first_perm := [], processed := [] }

/-- start_game: the phase sequence.  A nonzero phase result is
returned as the game result; falling out of analyse_combinations with
0 is the unreachable RETURN_ERROR(0).  `none` is a bail_out (process
abort). -/
def start_game (arb : Nat → Nat → Nat) : Option (Nat × gameinfo_t) :=
  let (r1, info1) := analyse_partitions arb initial_info
  if r1 ≠ 0 then some (r1, info1)
  else
    let (r2, info2) := analyse_colors arb info1
    if r2 ≠ 0 then some (r2, info2)
    else
      let info3 := analyse_possible info2
      match analyse_combinations arb info3 with
      | none => none
      | some (r4, info4) =>
        if r4 ≠ 0 then some (r4, info4) else some (RETURN_ERROR 0, info4)

/-- Specification helper: XOR of bits 0..n-1 of x. -/
def xorBelow (x : Nat) : Nat → Bool
  | 0 => false
  | n + 1 => Bool.xor (xorBelow x n) (x.testBit n)

theorem xorBelow_congr {x y : Nat} (n : Nat)
    (h : ∀ j, j < n → x.testBit j = y.testBit j) : xorBelow x n = xorBelow y n := by
  induction n with
  | zero => rfl
  | succ n ih =>
    simp only [xorBelow, ih (fun j hj => h j (Nat.lt_succ_of_lt hj)),
      h n (Nat.lt_succ_self n)]

theorem xorBelow_shiftRight (x : Nat) :
    ∀ n, Bool.xor (x.testBit 0) (xorBelow (x >>> 1) n) = xorBelow x (n + 1) := by
  intro n
  induction n with
  | zero => simp [xorBelow]
  | succ n ih =>
    have h1 : (x >>> 1).testBit n = x.testBit (n + 1) := by
      rw [Nat.testBit_shiftRight x, Nat.add_comm]
    show Bool.xor (x.testBit 0)
        (Bool.xor (xorBelow (x >>> 1) n) ((x >>> 1).testBit n)) = _
    rw [h1, show xorBelow x (n + 1 + 1) =
        Bool.xor (xorBelow x (n + 1)) (x.testBit (n + 1)) from rfl, ← ih,
      Bool.xor_assoc]

theorem parityFold_eq : ∀ (n p acc : Nat), acc ≤ 1 →
    parityFold n p acc = (Bool.xor (decide (acc = 1)) (xorBelow p n)).toNat := by
  intro n
  induction n with
  | zero =>
    intro p acc hacc
    interval_cases acc <;> simp [parityFold, xorBelow]
  | succ n ih =>
    intro p acc hacc
    have hp1 : p &&& 1 ≤ 1 := Nat.and_le_right
    have hacc' : acc ^^^ (p &&& 1) ≤ 1 := by
      interval_cases acc <;> interval_cases h : (p &&& 1) <;> simp_all
    have htb : p.testBit 0 = decide (p &&& 1 = 1) := by
      rw [Nat.and_one_is_mod]
      exact Nat.testBit_zero p
    show parityFold n (p >>> 1) (acc ^^^ (p &&& 1)) = _
    rw [ih (p >>> 1) (acc ^^^ (p &&& 1)) hacc']
    rw [← xorBelow_shiftRight, ← Bool.xor_assoc]
    congr 1
    congr 1
    rw [htb]
    interval_cases acc <;> interval_cases h : (p &&& 1) <;> simp_all

theorem compute_parity_testBit_15 (g : Nat) :
    (compute_parity g).testBit 15 = xorBelow g 15 := by
  show ((g &&& 0x7fff) ||| (parityFold 15 g 0 <<< 15)).testBit 15 = _
  rw [Nat.testBit_or, Nat.testBit_and, Nat.testBit_shiftLeft,
    parityFold_eq 15 g 0 (by omega)]
  have h32767 : Nat.testBit 32767 15 = false := by decide
  simp only [h32767, Bool.and_false, Bool.false_or]
  cases h : xorBelow g 15 <;> simp [Bool.toNat]

theorem compute_parity_testBit_low (g j : Nat) (hj : j < 15) :
    (compute_parity g).testBit j = g.testBit j := by
  show ((g &&& 0x7fff) ||| (parityFold 15 g 0 <<< 15)).testBit j = _
  rw [Nat.testBit_or, Nat.testBit_and, Nat.testBit_shiftLeft]
  have h1 : (0x7fff : Nat).testBit j = true := by
    have : (0x7fff : Nat) = 2 ^ 15 - 1 := by norm_num
    rw [this, Nat.testBit_two_pow_sub_one]
    simpa using hj
  have h2 : decide (j ≥ 15) = false := by simpa using hj
  simp [h1, h2]

/-- Claim C8: for every 16-bit guess, generate_request (via
compute_parity) sets bit 15 of the outgoing message to the XOR of bits
0-14 of the guess (whatever bit 15 was before); the XOR over all 16
transmitted bits is therefore 0 (even parity); and the low byte of the
transmitted value comes first in the 2-byte send buffer. -/
theorem claim_C8_parity (g : Nat) (_hg : g < 65536) :
    (compute_parity g).testBit 15 = xorBelow g 15 ∧
    xorBelow (compute_parity g) 16 = false ∧
    (generate_request g).1 =
      [(generate_request g).2 % 256, (generate_request g).2 / 256] := by
  refine ⟨compute_parity_testBit_15 g, ?_, ?_⟩
  · show Bool.xor (xorBelow (compute_parity g) 15) ((compute_parity g).testBit 15) = false
    rw [compute_parity_testBit_15 g,
      xorBelow_congr 15 (fun j hj => compute_parity_testBit_low g j hj),
      Bool.xor_self]
  · show [compute_parity g &&& (0xffff ^^^ (0xff <<< 8)), compute_parity g >>> 8] = _
    have h1 : (0xffff ^^^ (0xff <<< 8) : Nat) = 2 ^ 8 - 1 := by decide
    have h2 : compute_parity g &&& (2 ^ 8 - 1) = compute_parity g % 2 ^ 8 :=
      Nat.and_pow_two_sub_one_eq_mod (compute_parity g) 8
    have h3 : compute_parity g >>> 8 = compute_parity g / 2 ^ 8 :=
      Nat.shiftRight_eq_div_pow (compute_parity g) 8
    rw [h1, h2, h3]
    norm_num [generate_request]

/-- Witness for claim C8 at the concrete partition-0 guess value. -/
theorem claim_C8_parity_witness :
    (compute_parity 13376).testBit 15 = xorBelow 13376 15 ∧
    xorBelow (compute_parity 13376) 16 = false ∧
    (generate_request 13376).1 =
      [(generate_request 13376).2 % 256, (generate_request 13376).2 / 256] :=
  claim_C8_parity 13376 (by decide)

theorem perm_matches_true_iff (p : Nat) (processed : List (Nat × Nat)) :
    perm_matches p processed = true ↔
      ∀ q ∈ processed, compare_perm_equal_pos p q.1 = q.2 := by
  induction processed with
  | nil => simp [perm_matches]
  | cons q qs ih =>
    show (if compare_perm_equal_pos p q.1 = q.2 then perm_matches p qs else false) = true ↔ _
    by_cases h : compare_perm_equal_pos p q.1 = q.2
    · rw [if_pos h, ih]
      constructor
      · intro hall q' hq'
        rcases List.mem_cons.1 hq' with rfl | hmem
        · exact h
        · exact hall q' hmem
      · intro hall q' hq'
        exact hall q' (List.mem_cons_of_mem q hq')
    · rw [if_neg h]
      constructor
      · intro hfalse
        exact absurd hfalse (by simp)
      · intro hall
        exact absurd (hall q (List.mem_cons_self q qs)) h

theorem perm_matches_false (p : Nat) (processed : List (Nat × Nat))
    (h : perm_matches p processed = false) :
    ∃ q ∈ processed, compare_perm_equal_pos p q.1 ≠ q.2 := by
  by_contra hc
  push_neg at hc
  have : perm_matches p processed = true := by
    rw [perm_matches_true_iff]
    intro q hq
    exact hc q hq
  simp [this] at h

/-- Claim C1: find_best_perm returns the index of the first candidate
(in list order) whose exact-position-match count against each
processed guess equals that guess's recorded red count; the returned
candidate is consistent with every processed guess, every earlier
candidate disagrees with at least one processed guess, and a `none`
result means every candidate disagrees somewhere. -/
theorem claim_C1_find_best_perm (cands : List Nat) (processed : List (Nat × Nat)) :
    (∀ i, find_best_perm cands processed = some i →
       i < cands.length ∧
       (∀ q ∈ processed, compare_perm_equal_pos (cands.getD i 0) q.1 = q.2) ∧
       ∀ j, j < i → ∃ q ∈ processed,
         compare_perm_equal_pos (cands.getD j 0) q.1 ≠ q.2) ∧
    (find_best_perm cands processed = none →
       ∀ p ∈ cands, ∃ q ∈ processed, compare_perm_equal_pos p q.1 ≠ q.2) := by
  induction cands with
  | nil => simp [find_best_perm]
  | cons p ps ih =>
    by_cases h : perm_matches p processed
    · refine ⟨?_, ?_⟩
      · intro i hi
        simp [find_best_perm, h] at hi
        subst hi
        refine ⟨by simp, ?_, by omega⟩
        intro q hq
        simpa using (perm_matches_true_iff p processed).1 h q hq
      · intro hnone
        simp [find_best_perm, h] at hnone
    · refine ⟨?_, ?_⟩
      · intro i hi
        simp only [find_best_perm, h, if_false, Bool.false_eq_true, Option.map_eq_some'] at hi
        obtain ⟨i', hi', rfl⟩ := hi
        obtain ⟨hlen, hcons, hearlier⟩ := ih.1 i' hi'
        refine ⟨by simpa using hlen, by simpa using hcons, ?_⟩
        intro j hj
        cases j with
        | zero =>
          simpa using perm_matches_false p processed (by simpa using h)
        | succ j' =>
          simpa using hearlier j' (by omega)
      · intro hnone
        simp only [find_best_perm, h, if_false, Bool.false_eq_true,
          Option.map_eq_none'] at hnone
        intro x hx
        rcases List.mem_cons.1 hx with rfl | hx'
        · exact perm_matches_false x processed (by simpa using h)
        · exact ih.2 hnone x hx'

/-- Witness for claim C1 on a concrete candidate/processed pair: the
first candidate disagrees with the recorded red count, the second is
returned. -/
theorem claim_C1_find_best_perm_witness :
    1 < [9, 1].length ∧
    (∀ q ∈ [(0, 4)], compare_perm_equal_pos ([9, 1].getD 1 0) q.1 = q.2) ∧
    ∀ j, j < 1 → ∃ q ∈ [(0, 4)],
      compare_perm_equal_pos ([9, 1].getD j 0) q.1 ≠ q.2 :=
  (claim_C1_find_best_perm [9, 1] [(0, 4)]).1 1 (by decide)

theorem combGo_search (m c : Nat) (hm : m ≤ 254) (hc : 1 ≤ c) :
    ∀ fuel cur, cur ≤ m → m + 1 - cur < fuel →
      (combGo m c fuel cur = 0 →
        ∀ v, cur ≤ v → v ≤ m →
          ¬(v &&& m = v ∧ calculate_set_bits v SLOTS = c)) ∧
      (combGo m c fuel cur ≠ 0 →
        (combGo m c fuel cur &&& m = combGo m c fuel cur ∧
         calculate_set_bits (combGo m c fuel cur) SLOTS = c) ∧
        cur ≤ combGo m c fuel cur ∧ combGo m c fuel cur ≤ m ∧
        ∀ v, cur ≤ v → v < combGo m c fuel cur →
          ¬(v &&& m = v ∧ calculate_set_bits v SLOTS = c)) := by
  intro fuel
  induction fuel with
  | zero => intro cur _ hf; omega
  | succ fuel ih =>
    intro cur hcur hf
    by_cases hP : cur &&& m = cur ∧ calculate_set_bits cur SLOTS = c
    · have hres : combGo m c (fuel + 1) cur = cur := by
        show (if cur &&& m = cur ∧ calculate_set_bits cur SLOTS = c then cur else _) = cur
        rw [if_pos hP]
      have hcur0 : cur ≠ 0 := by
        intro h0
        subst h0
        have : calculate_set_bits 0 SLOTS = 0 := by decide
        omega
      constructor
      · intro h0
        rw [hres] at h0
        exact absurd h0 hcur0
      · intro _
        rw [hres]
        exact ⟨hP, Nat.le_refl cur, hcur, fun v hv1 hv2 => by omega⟩
    · have hstep : combGo m c (fuel + 1) cur =
          (if cur + 1 > m then 0 else combGo m c fuel (cur + 1)) := by
        show (if cur &&& m = cur ∧ calculate_set_bits cur SLOTS = c then cur
              else if (cur + 1) % 256 > m then 0 else combGo m c fuel ((cur + 1) % 256)) = _
        rw [if_neg hP, Nat.mod_eq_of_lt (by omega)]
      by_cases hend : cur + 1 > m
      · have hcm : cur = m := by omega
        rw [hstep, if_pos hend]
        constructor
        · intro _ v hv1 hv2
          have : v = cur := by omega
          subst this
          exact hP
        · intro hne
          exact absurd rfl hne
      · rw [hstep, if_neg hend]
        have ihc := ih (cur + 1) (by omega) (by omega)
        constructor
        · intro h0 v hv1 hv2
          by_cases hvc : v = cur
          · subst hvc
            exact hP
          · exact ihc.1 h0 v (by omega) hv2
        · intro hne
          obtain ⟨hPr, hge, hle, hfirst⟩ := ihc.2 hne
          refine ⟨hPr, by omega, hle, ?_⟩
          intro v hv1 hv2
          by_cases hvc : v = cur
          · subst hvc
            exact hP
          · exact hfirst v (by omega) hv2

/-- Counterexample to claim C4 as stated: at start value s = 255 (a
legal uint8_t), mask 3 and count 1, there is no v with s < v ≤ m, so
the claim demands 0, but the 8-bit increment wraps and
compute_combination returns 1. -/
theorem claim_C4_counterexample :
    compute_combination 255 3 1 = 1 ∧ (1 ≠ 0) ∧ ∀ v : Nat, 255 < v → v ≤ 3 → False := by
  refine ⟨by decide, by decide, ?_⟩
  intro v h1 h2
  omega

/-- Claim C4, amended: restricted to start values s ≤ 253 (so that the
8-bit increment cannot wrap; at s = 254 or 255 the wrap restarts the
search at 0 and the result can fail s < v), compute_combination
returns the smallest v with s < v ≤ m that is a subset of m with
exactly c set bits among its low 5 bits, and 0 when no such v exists;
and the builder's first call passes 2^needed - 2, so the first value
it tests is 2^needed - 1. -/
theorem claim_C4_compute_combination (s m c : Nat)
    (hs : s ≤ 253) (hm : m ≤ 31) (hc1 : 1 ≤ c) (_hc5 : c ≤ 5) :
    ((compute_combination s m c = 0 →
        ∀ v, s < v → v ≤ m →
          ¬(v &&& m = v ∧ calculate_set_bits v SLOTS = c)) ∧
     (compute_combination s m c ≠ 0 →
        s < compute_combination s m c ∧ compute_combination s m c ≤ m ∧
        compute_combination s m c &&& m = compute_combination s m c ∧
        calculate_set_bits (compute_combination s m c) SLOTS = c ∧
        ∀ v, s < v → v < compute_combination s m c →
          ¬(v &&& m = v ∧ calculate_set_bits v SLOTS = c))) ∧
    (∀ n, 1 ≤ n → n ≤ 7 → ((255 >>> (COLORS - n)) + 255) % 256 = 2 ^ n - 2) ∧
    (∀ n, 1 ≤ n → n ≤ 5 → (2 ^ n - 2) + 1 = 2 ^ n - 1) := by
  refine ⟨?_, by decide, by decide⟩
  have hstart : compute_combination s m c = combGo m c 300 (s + 1) := by
    show combGo m c 300 ((s + 1) % 256) = _
    rw [Nat.mod_eq_of_lt (by omega)]
  by_cases hsm : s + 1 ≤ m
  · have h := combGo_search m c (by omega) hc1 300 (s + 1) hsm (by omega)
    constructor
    · intro h0 v hv1 hv2
      rw [hstart] at h0
      exact h.1 h0 v (by omega) hv2
    · intro hne
      rw [hstart] at hne ⊢
      obtain ⟨hPr, hge, hle, hfirst⟩ := h.2 hne
      exact ⟨by omega, hle, hPr.1, hPr.2, fun v hv1 hv2 => hfirst v (by omega) hv2⟩
  · have hres : compute_combination s m c = 0 := by
      rw [hstart]
      show (if (s + 1) &&& m = s + 1 ∧ calculate_set_bits (s + 1) SLOTS = c then s + 1
            else if (s + 1 + 1) % 256 > m then 0 else _) = 0
      have hP : ¬((s + 1) &&& m = s + 1 ∧ calculate_set_bits (s + 1) SLOTS = c) := by
        intro hP
        have : (s + 1) &&& m ≤ m := Nat.and_le_right
        omega
      rw [if_neg hP, Nat.mod_eq_of_lt (by omega), if_pos (by omega)]
    constructor
    · intro _ v hv1 hv2
      intro hP
      have : v &&& m ≤ m := Nat.and_le_right
      omega
    · intro hne
      exact absurd hres hne

/-- Witness for the amended claim C4 at s = 2, m = 31, c = 2: the
returned combination is 3's successor with two bits, namely 5. -/
theorem claim_C4_compute_combination_witness :
    ((compute_combination 2 31 2 = 0 →
        ∀ v, 2 < v → v ≤ 31 →
          ¬(v &&& 31 = v ∧ calculate_set_bits v SLOTS = 2)) ∧
     (compute_combination 2 31 2 ≠ 0 →
        2 < compute_combination 2 31 2 ∧ compute_combination 2 31 2 ≤ 31 ∧
        compute_combination 2 31 2 &&& 31 = compute_combination 2 31 2 ∧
        calculate_set_bits (compute_combination 2 31 2) SLOTS = 2 ∧
        ∀ v, 2 < v → v < compute_combination 2 31 2 →
          ¬(v &&& 31 = v ∧ calculate_set_bits v SLOTS = 2))) ∧
    (∀ n, 1 ≤ n → n ≤ 7 → ((255 >>> (COLORS - n)) + 255) % 256 = 2 ^ n - 2) ∧
    (∀ n, 1 ≤ n → n ≤ 5 → (2 ^ n - 2) + 1 = 2 ^ n - 1) :=
  claim_C4_compute_combination 2 31 2 (by decide) (by decide) (by decide) (by decide)

/-- Specification helper: the Code that places color `a` on the slots
of the 5-bit mask `m` and color `b` on the remaining slots. -/
def codeOf (a b m : Nat) : Nat :=
  (List.range 5).foldl
    (fun g j => if m.testBit j then addColorStore g a j else addColorStore g b j) 0

/-- A PossibilityInfo state in which exactly colors `a` and `b` have
nonzero occurrence counts (2 and 3) and both have all 5 slots
possible: entry 31 | 2 << 5 = 95 for `a`, 31 | 3 << 5 = 127 for `b`,
0 elsewhere. -/
def twoColorPossible (a b : Nat) : List Nat :=
  (List.range 8).map (fun c => if c = a then 95 else if c = b then 127 else 0)

/-- Candidate list the generator produces for `twoColorPossible`. -/
def twoColorCands (a b : Nat) : List Nat :=
  processChain 0 0 [] (build_combination_list (twoColorPossible a b))

/-- Replay of the sibling insertion order: starting from the chain
holding the first enumerated mask, insert each further mask with the
alternating entropy rule.  Applied to the ascending enumeration this
is the order in which build_combination_list leaves the siblings. -/
def entropyOrderGo : List Nat → Nat → List Nat → List Nat
  | [], _, chain => chain
  | x :: xs, e, chain =>
      entropyOrderGo xs (e + 1)
        (if e % 2 = 1 then x :: chain
         else match chain with
              | [] => [x]
              | h :: t => h :: x :: t)

/-- The 5-bit masks with exactly 2 set bits, in ascending order (the
enumeration order of compute_combination). -/
def mask2List : List Nat := (List.range 32).filter (fun m => calculate_set_bits m SLOTS = 2)

/-- The sibling order the builder produces for the masks of
`mask2List`. -/
def entropyMask2 : List Nat := entropyOrderGo (mask2List.drop 1) 1 (mask2List.take 1)


/-- The sequence of masks the sibling while loop enumerates: iterate
compute_combination from the previous hit until it returns 0 (or the
fuel, which bounds the 5-bit mask space, runs out). -/
def enumMasks (mask needed : Nat) : Nat → Nat → List Nat
  | 0, _ => []
  | fuel + 1, comb =>
    let c' := compute_combination comb mask needed
    if c' = 0 then [] else c' :: enumMasks mask needed fuel c'

theorem entropyInsert_map (entropy : Nat) (sib : CombNode) (chain : List CombNode) :
    (entropyInsert entropy sib chain).map CombNode.combination =
      (if entropy % 2 = 1 then sib.combination :: chain.map CombNode.combination
       else match chain.map CombNode.combination with
            | [] => [sib.combination]
            | h :: t => h :: sib.combination :: t) := by
  cases chain with
  | nil => by_cases h : entropy % 2 = 1 <;> simp [entropyInsert, h]
  | cons n rest => by_cases h : entropy % 2 = 1 <;> simp [entropyInsert, h]

/-- The sibling chain sibLoop leaves behind holds, as its combination
masks, exactly the alternating (entropy) insertion of the masks it
enumerates into the starting chain's masks. -/
theorem sibLoop_combination_map (pMask i needed mask : Nat)
    (buildChild : Nat → List CombNode) :
    ∀ fuel comb entropy chain,
      (sibLoop pMask i needed mask buildChild fuel comb entropy chain).map
          CombNode.combination =
        entropyOrderGo (enumMasks mask needed fuel comb) entropy
          (chain.map CombNode.combination) := by
  intro fuel
  induction fuel with
  | zero => intro comb entropy chain; rfl
  | succ fuel ih =>
    intro comb entropy chain
    by_cases h0 : compute_combination comb mask needed = 0
    · show ((if compute_combination comb mask needed = 0 then chain else _).map
          CombNode.combination) =
        entropyOrderGo (if compute_combination comb mask needed = 0 then [] else _)
          entropy (chain.map CombNode.combination)
      rw [if_pos h0, if_pos h0]
      rfl
    · show ((if compute_combination comb mask needed = 0 then chain
            else sibLoop pMask i needed mask buildChild fuel
              (compute_combination comb mask needed) (entropy + 1)
              (entropyInsert entropy _ chain)).map CombNode.combination) =
        entropyOrderGo
          (if compute_combination comb mask needed = 0 then []
           else compute_combination comb mask needed ::
             enumMasks mask needed fuel (compute_combination comb mask needed))
          entropy (chain.map CombNode.combination)
      rw [if_neg h0, if_neg h0, ih]
      rw [entropyInsert_map]
      rfl

theorem mem_entropyInsert (e : Nat) (s : CombNode) (ch : List CombNode) :
    ∀ n ∈ entropyInsert e s ch, n = s ∨ n ∈ ch := by
  intro n hn
  cases ch with
  | nil =>
    by_cases h : e % 2 = 1 <;> simp [entropyInsert, h] at hn <;> tauto
  | cons x t =>
    by_cases h : e % 2 = 1 <;>
      simp [entropyInsert, h, List.mem_cons] at hn <;>
      simp only [List.mem_cons] <;> tauto

/-- Every sibling node the loop inserts carries the loop's color `i`. -/
theorem sibLoop_color (pMask i needed mask : Nat) (buildChild : Nat → List CombNode) :
    ∀ fuel comb entropy chain, (∀ n ∈ chain, n.color = i) →
      ∀ n ∈ sibLoop pMask i needed mask buildChild fuel comb entropy chain, n.color = i := by
  intro fuel
  induction fuel with
  | zero => exact fun comb entropy chain h => h
  | succ fuel ih =>
    intro comb entropy chain h
    by_cases h0 : compute_combination comb mask needed = 0
    · show ∀ n ∈ (if compute_combination comb mask needed = 0 then chain else _), n.color = i
      rw [if_pos h0]
      exact h
    · show ∀ n ∈ (if compute_combination comb mask needed = 0 then chain
          else sibLoop pMask i needed mask buildChild fuel
            (compute_combination comb mask needed) (entropy + 1)
            (entropyInsert entropy
              (CombNode.mk i (i + 1)
                ((pMask &&& (255 ^^^ compute_combination comb mask needed)) &&& 31)
                (compute_combination comb mask needed) _)
              chain)), n.color = i
      rw [if_neg h0]
      apply ih
      intro n hn
      rcases mem_entropyInsert entropy _ chain n hn with hs | hc
      · subst hs
        rfl
      · exact h n hc

mutual
theorem processNode_acc (guess counter : Nat) (acc : List Nat) :
    ∀ n : CombNode, processNode guess counter acc n = acc ++ processNode guess counter [] n
  | .mk color nc m comb [] => by
    show (if counter + calculate_set_bits comb SLOTS = SLOTS
          then acc ++ [setColorsGo color 5 0 guess comb] else acc) =
      acc ++ (if counter + calculate_set_bits comb SLOTS = SLOTS
          then [] ++ [setColorsGo color 5 0 guess comb] else [])
    by_cases h : counter + calculate_set_bits comb SLOTS = SLOTS
    · rw [if_pos h, if_pos h]
      simp
    · rw [if_neg h, if_neg h]
      simp
  | .mk color nc m comb (c :: cs) => by
    show processChain (setColorsGo color 5 0 guess comb)
        (counter + calculate_set_bits comb SLOTS) acc (c :: cs) =
      acc ++ processChain (setColorsGo color 5 0 guess comb)
        (counter + calculate_set_bits comb SLOTS) [] (c :: cs)
    exact processChain_acc _ _ acc (c :: cs)

theorem processChain_acc (guess counter : Nat) (acc : List Nat) :
    ∀ chain : List CombNode,
      processChain guess counter acc chain = acc ++ processChain guess counter [] chain
  | [] => by simp [processChain]
  | n :: rest => by
    show processChain guess counter (processNode guess counter acc n) rest =
      acc ++ processChain guess counter (processNode guess counter [] n) rest
    rw [processChain_acc guess counter (processNode guess counter acc n) rest,
        processChain_acc guess counter (processNode guess counter [] n) rest,
        processNode_acc guess counter acc n]
    simp [List.append_assoc]
end

/-- The generator's DFS structure: the candidate list is the starting
accumulator followed by, for each sibling of the chain in chain order,
that sibling's complete subtree block. -/
theorem processChain_flatten (guess counter : Nat) :
    ∀ (chain : List CombNode) (acc : List Nat),
      processChain guess counter acc chain =
        acc ++ (chain.map (fun n => processNode guess counter [] n)).flatten := by
  intro chain
  induction chain with
  | nil =>
    intro acc
    simp [processChain]
  | cons n rest ih =>
    intro acc
    show processChain guess counter (processNode guess counter acc n) rest = _
    rw [ih, processNode_acc]
    simp [List.append_assoc]

/-- compute_combination's search characterization (the C4 content, as a
shared helper): for non-wrapping start values the result is 0 iff no
valid mask lies in (s, m], and otherwise the smallest one. -/
theorem compute_combination_char (s m c : Nat)
    (hs : s ≤ 253) (hm : m ≤ 31) (hc1 : 1 ≤ c) :
    (compute_combination s m c = 0 →
        ∀ v, s < v → v ≤ m →
          ¬(v &&& m = v ∧ calculate_set_bits v SLOTS = c)) ∧
    (compute_combination s m c ≠ 0 →
        s < compute_combination s m c ∧ compute_combination s m c ≤ m ∧
        compute_combination s m c &&& m = compute_combination s m c ∧
        calculate_set_bits (compute_combination s m c) SLOTS = c ∧
        ∀ v, s < v → v < compute_combination s m c →
          ¬(v &&& m = v ∧ calculate_set_bits v SLOTS = c)) := by
  have hstart : compute_combination s m c = combGo m c 300 (s + 1) := by
    show combGo m c 300 ((s + 1) % 256) = _
    rw [Nat.mod_eq_of_lt (by omega)]
  by_cases hsm : s + 1 ≤ m
  · have h := combGo_search m c (by omega) hc1 300 (s + 1) hsm (by omega)
    constructor
    · intro h0 v hv1 hv2
      rw [hstart] at h0
      exact h.1 h0 v (by omega) hv2
    · intro hne
      rw [hstart] at hne ⊢
      obtain ⟨hPr, hge, hle, hfirst⟩ := h.2 hne
      exact ⟨by omega, hle, hPr.1, hPr.2, fun v hv1 hv2 => hfirst v (by omega) hv2⟩
  · have hres : compute_combination s m c = 0 := by
      rw [hstart]
      show (if (s + 1) &&& m = s + 1 ∧ calculate_set_bits (s + 1) SLOTS = c then s + 1
            else if (s + 1 + 1) % 256 > m then 0 else _) = 0
      have hP : ¬((s + 1) &&& m = s + 1 ∧ calculate_set_bits (s + 1) SLOTS = c) := by
        intro hP
        have : (s + 1) &&& m ≤ m := Nat.and_le_right
        omega
      rw [if_neg hP, Nat.mod_eq_of_lt (by omega), if_pos (by omega)]
    constructor
    · intro _ v hv1 hv2
      intro hP
      have : v &&& m ≤ m := Nat.and_le_right
      omega
    · intro hne
      exact absurd hres hne

theorem range'_split : ∀ (p a q : Nat),
    List.range' a (p + q) = List.range' a p ++ List.range' (a + p) q
  | 0, a, q => by simp
  | p + 1, a, q => by
    have h1 : p + 1 + q = (p + q) + 1 := by omega
    rw [h1]
    show a :: List.range' (a + 1) (p + q) = a :: List.range' (a + 1) p ++ _
    rw [range'_split p (a + 1) q]
    simp [show a + 1 + p = a + (p + 1) from by omega]

/-- The mask sequence the sibling loop enumerates is the ascending list
of the valid masks above the start value: the subsets of `mask` with
`needed` set bits, in increasing order. -/
theorem enumMasks_asc (mask needed : Nat) (hm : mask ≤ 31) (hc : 1 ≤ needed) :
    ∀ fuel comb, comb ≤ 253 → mask ≤ comb + fuel →
      enumMasks mask needed fuel comb =
        (List.range' (comb + 1) (mask - comb)).filter
          (fun v => v &&& mask = v ∧ calculate_set_bits v SLOTS = needed) := by
  intro fuel
  induction fuel with
  | zero =>
    intro comb h253 hfuel
    have h0 : mask - comb = 0 := by omega
    rw [h0]
    rfl
  | succ fuel ih =>
    intro comb h253 hfuel
    obtain ⟨hzero, hnonzero⟩ := compute_combination_char comb mask needed h253 hm hc
    have hbody : enumMasks mask needed (fuel + 1) comb =
        (if compute_combination comb mask needed = 0 then []
         else compute_combination comb mask needed ::
           enumMasks mask needed fuel (compute_combination comb mask needed)) := rfl
    rw [hbody]
    by_cases h0 : compute_combination comb mask needed = 0
    · rw [if_pos h0]
      symm
      rw [List.filter_eq_nil_iff]
      intro v hv
      rw [List.mem_range'_1] at hv
      simp only [decide_eq_true_eq, not_and]
      intro hand hbits
      exact hzero h0 v (by omega) (by omega) ⟨hand, hbits⟩
    · rw [if_neg h0]
      obtain ⟨hlt, hle, hand, hbits, hfirst⟩ := hnonzero h0
      rw [ih (compute_combination comb mask needed) (by omega) (by omega)]
      have hsplit : List.range' (comb + 1) (mask - comb) =
          List.range' (comb + 1) (compute_combination comb mask needed - comb - 1) ++
            List.range' (compute_combination comb mask needed)
              (mask - compute_combination comb mask needed + 1) := by
        rw [show mask - comb = (compute_combination comb mask needed - comb - 1) +
            (mask - compute_combination comb mask needed + 1) from by omega,
          range'_split]
        congr 2
        omega
      rw [hsplit, List.filter_append]
      have hleft : (List.range' (comb + 1)
          (compute_combination comb mask needed - comb - 1)).filter
          (fun v => v &&& mask = v ∧ calculate_set_bits v SLOTS = needed) = [] := by
        rw [List.filter_eq_nil_iff]
        intro v hv
        rw [List.mem_range'_1] at hv
        simp only [decide_eq_true_eq, not_and]
        intro hand' hbits'
        exact hfirst v (by omega) (by omega) ⟨hand', hbits'⟩
      rw [hleft, List.nil_append]
      rw [show List.range' (compute_combination comb mask needed)
          (mask - compute_combination comb mask needed + 1) =
          compute_combination comb mask needed ::
            List.range' (compute_combination comb mask needed + 1)
              (mask - compute_combination comb mask needed) from rfl]
      rw [List.filter_cons_of_pos]
      exact decide_eq_true ⟨hand, hbits⟩

/-- The top level of a successful build: the root chain is the sibling
loop's chain seeded with the first mask, so its combination masks are
the alternating insertion of the ascending enumeration, and every root
node carries the first possible color. -/
theorem build_top_level (possible : List Nat) (i c1 : Nat)
    (hfp : firstPossible possible 8 0 = some i)
    (hmask : (possible.getD i 0 &&& 31) &&& 31 ≠ 0)
    (hc1 : c1 = compute_combination
      (((255 >>> (COLORS - (possible.getD i 0 >>> SLOTS))) + 255) % 256)
      ((possible.getD i 0 &&& 31) &&& 31) (possible.getD i 0 >>> SLOTS))
    (hc1ne : c1 ≠ 0) :
    (build_combination_list possible).map CombNode.combination =
      entropyOrderGo
        (enumMasks ((possible.getD i 0 &&& 31) &&& 31)
          (possible.getD i 0 >>> SLOTS) 32 c1) 1 [c1] ∧
    ∀ n ∈ build_combination_list possible, n.color = i := by
  have hbuild : buildCore possible 9 31 0 31 =
      (match firstPossible possible 8 0 with
       | none => .attach [CombNode.mk 0 0 31 0 []]
       | some i =>
         let pv := possible.getD i 0
         let needed := pv >>> SLOTS
         let comb0 := ((255 >>> (COLORS - needed)) + 255) % 256
         let mask := (pv &&& 31) &&& 31
         if mask = 0 then .early (CombNode.mk i (i + 1) 31 0 [])
         else
           let c1 := compute_combination comb0 mask needed
           if c1 = 0 then .early (CombNode.mk i (i + 1) 31 0 [])
           else
             let sMask := (31 &&& (255 ^^^ c1)) &&& 31
             let buildChild : Nat → List CombNode := fun m =>
               match buildCore possible 8 m (i + 1) 0 with
               | .early _ => []
               | .attach ch => cleanupChain ch
             let children := if i < COLORS - 1 ∧ sMask ≠ 0 then buildChild sMask else []
             let self := CombNode.mk i (i + 1) sMask c1 children
             .attach (sibLoop 31 i needed mask buildChild 32 c1 1 [self])) := rfl
  obtain ⟨bc, ch, hattach⟩ : ∃ bc ch, buildCore possible 9 31 0 31 =
      .attach (sibLoop 31 i (possible.getD i 0 >>> SLOTS)
        ((possible.getD i 0 &&& 31) &&& 31) bc 32 c1 1
        [CombNode.mk i (i + 1) ((31 &&& (255 ^^^ c1)) &&& 31) c1 ch]) := by
    refine ⟨fun m =>
        match buildCore possible 8 m (i + 1) 0 with
        | .early _ => []
        | .attach ch => cleanupChain ch,
      (if i < COLORS - 1 ∧ ((31 &&& (255 ^^^ c1)) &&& 31) ≠ 0 then
        (fun m =>
          match buildCore possible 8 m (i + 1) 0 with
          | .early _ => []
          | .attach ch => cleanupChain ch) ((31 &&& (255 ^^^ c1)) &&& 31)
       else []), ?_⟩
    rw [hbuild, hfp]
    dsimp only
    rw [if_neg hmask, ← hc1, if_neg hc1ne]
  have hlist : build_combination_list possible =
      sibLoop 31 i (possible.getD i 0 >>> SLOTS)
        ((possible.getD i 0 &&& 31) &&& 31) bc 32 c1 1
        [CombNode.mk i (i + 1) ((31 &&& (255 ^^^ c1)) &&& 31) c1 ch] := by
    show (match buildCore possible 9 31 0 31 with
          | .attach ch => ch
          | .early n => [n]) = _
    rw [hattach]
  constructor
  · rw [hlist, sibLoop_combination_map]
    rfl
  · rw [hlist]
    apply sibLoop_color
    intro n hn
    have hne : n = CombNode.mk i (i + 1) ((31 &&& (255 ^^^ c1)) &&& 31) c1 ch := by
      simpa using hn
    rw [hne]
    rfl

set_option maxHeartbeats 4000000 in
theorem twoColor_master : ∀ a < 8, ∀ b < 8, a < b →
    twoColorCands a b = entropyMask2.map (codeOf a b) := by decide

theorem mem_entropyMask2 : ∀ m < 32, calculate_set_bits m SLOTS = 2 → m ∈ entropyMask2 := by
  decide

theorem nodup_twoColor_map : ∀ a < 8, ∀ b < 8, a < b →
    (entropyMask2.map (codeOf a b)).Nodup := by decide

/-- Claim C3: with exactly two colors of occurrence counts 2 and 3 and
fully free position masks, the tree builder and candidate generator
produce exactly 10 candidates, one for each of the C(5,2) = 10
two-bit position masks of the first color, each completed by the
complementary mask of the second color. -/
theorem claim_C3_two_colors : ∀ a, a < 8 → ∀ b, b < 8 → a < b →
    (twoColorCands a b).length = 10 ∧
    ∀ m, m < 32 → calculate_set_bits m SLOTS = 2 →
      (twoColorCands a b).count (codeOf a b m) = 1 := by
  intro a ha b hb hab
  rw [twoColor_master a ha b hb hab]
  constructor
  · rw [List.length_map]
    decide
  · intro m hm hpop
    exact List.count_eq_one_of_mem (nodup_twoColor_map a ha b hb hab)
      (List.mem_map_of_mem (codeOf a b) (mem_entropyMask2 m hm hpop))

/-- Witness for claim C3 at colors 0 and 1. -/
theorem claim_C3_two_colors_witness :
    (twoColorCands 0 1).length = 10 ∧
    ∀ m, m < 32 → calculate_set_bits m SLOTS = 2 →
      (twoColorCands 0 1).count (codeOf 0 1 m) = 1 :=
  claim_C3_two_colors 0 (by decide) 1 (by decide) (by decide)

/-- Specification helper: the 5-bit mask of the slots where `code`
holds color `a`. -/
def colorMaskOf (a code : Nat) : Nat :=
  (List.range 5).foldl
    (fun m j => if (code >>> (3 * j)) &&& 7 = a then m ||| (1 <<< j) else m) 0

/-- Counterexample to claim C5 as stated: for the two-color scenario
(colors 0 and 1, counts 2 and 3), the generated candidate list is not
the ascending mask-enumeration order of the first color (it starts
with mask 24, not 3): the builder's alternating sibling insertion
reorders the masks. -/
theorem claim_C5_counterexample :
    twoColorCands 0 1 ≠ mask2List.map (codeOf 0 1) := by
  rw [twoColor_master 0 (by decide) 1 (by decide) (by decide)]
  decide

theorem colorMask_code : ∀ a < 8, ∀ b < 8, a < b →
    entropyMask2.map (fun m => colorMaskOf a (codeOf a b m)) = entropyMask2 := by decide

set_option maxHeartbeats 1000000 in
/-- Claim C5, amended.  (1) The candidate list is the DFS preorder of
the combination tree: for every chain, the generator emits each
sibling's complete subtree as one contiguous block, siblings in chain
order — so the top-level chain's masks, which belong to the first
color, vary slowest.  (2) The sibling chains the builder leaves hold,
as their masks, the alternating (entropy) insertion of the loop's
enumeration sequence into the starting chain, and (3) that enumeration
sequence is the ascending list of all valid masks above the start —
so the sibling order is the alternating insertion of the ascending
enumeration, not the ascending enumeration itself.  (4) A successful
top-level build is such a sibling chain seeded with the first mask,
every root node carrying the first possible color.  (5) In the
two-color 2/3 scenario the candidate list is exactly that order mapped
to codes, the first color's mask sequence along the list is that order
with each mask occurring once, and (6) the built chain's masks there
are entropyMask2 = [24, 18, 20, 12, 17, 9, 10, 5, 6, 3]. -/
theorem claim_C5_candidate_order :
    (∀ guess counter acc chain, processChain guess counter acc chain =
        acc ++ (chain.map (fun n => processNode guess counter [] n)).flatten) ∧
    (∀ pMask i needed mask buildChild fuel comb entropy chain,
        (sibLoop pMask i needed mask buildChild fuel comb entropy chain).map
            CombNode.combination =
          entropyOrderGo (enumMasks mask needed fuel comb) entropy
            (chain.map CombNode.combination)) ∧
    (∀ mask needed fuel comb, mask ≤ 31 → 1 ≤ needed → comb ≤ 253 → mask ≤ comb + fuel →
        enumMasks mask needed fuel comb =
          (List.range' (comb + 1) (mask - comb)).filter
            (fun v => v &&& mask = v ∧ calculate_set_bits v SLOTS = needed)) ∧
    (∀ possible i c1, firstPossible possible 8 0 = some i →
        (possible.getD i 0 &&& 31) &&& 31 ≠ 0 →
        c1 = compute_combination
          (((255 >>> (COLORS - (possible.getD i 0 >>> SLOTS))) + 255) % 256)
          ((possible.getD i 0 &&& 31) &&& 31) (possible.getD i 0 >>> SLOTS) →
        c1 ≠ 0 →
        (build_combination_list possible).map CombNode.combination =
          entropyOrderGo
            (enumMasks ((possible.getD i 0 &&& 31) &&& 31)
              (possible.getD i 0 >>> SLOTS) 32 c1) 1 [c1] ∧
        ∀ n ∈ build_combination_list possible, n.color = i) ∧
    (∀ a, a < 8 → ∀ b, b < 8 → a < b →
        twoColorCands a b = entropyMask2.map (codeOf a b) ∧
        (twoColorCands a b).map (colorMaskOf a) = entropyMask2 ∧
        entropyMask2.Nodup) ∧
    ((build_combination_list (twoColorPossible 0 1)).map CombNode.combination =
      entropyMask2 ∧
     entropyMask2 = entropyOrderGo (mask2List.drop 1) 1 (mask2List.take 1)) := by
  refine ⟨?_, ?_, ?_, ?_, ?_, ?_⟩
  · intro guess counter acc chain
    exact processChain_flatten guess counter chain acc
  · intro pMask i needed mask buildChild fuel comb entropy chain
    exact sibLoop_combination_map pMask i needed mask buildChild fuel comb entropy chain
  · intro mask needed fuel comb hm hc h253 hfuel
    exact enumMasks_asc mask needed hm hc fuel comb h253 hfuel
  · intro possible i c1 h1 h2 h3 h4
    exact build_top_level possible i c1 h1 h2 h3 h4
  · intro a ha b hb hab
    have hmaster := twoColor_master a ha b hb hab
    refine ⟨hmaster, ?_, by decide⟩
    rw [hmaster, List.map_map]
    exact colorMask_code a ha b hb hab
  · exact ⟨by decide, rfl⟩

/-- Specification helper for the collapse rule of C6. -/
def collapseTo (p m : Nat) : Nat :=
  if p &&& 224 = 0 then 0 else (p &&& 224) ||| m


theorem or_pos_ne_zero (a b : Nat) (hb : 0 < b) : a ||| b ≠ 0 := by
  intro h
  rcases Nat.exists_most_significant_bit (Nat.pos_iff_ne_zero.mp hb) with ⟨i, hi, _⟩
  have h1 : (a ||| b).testBit i = true := by
    rw [Nat.testBit_or, hi]
    simp
  rw [h] at h1
  simp at h1

theorem or_eq_zero_iff_false (a b : Nat) (hb : 0 < b) : (a ||| b = 0) ↔ False :=
  iff_false_intro (or_pos_ne_zero a b hb)

theorem and_252_of_and_254 (p : Nat) (h : p &&& 254 = 0) : p &&& 252 = 0 := by
  rw [show (252 : Nat) = 254 &&& 252 from by decide, ← Nat.and_assoc, h, Nat.zero_and]

theorem ruleZero0 (p0 p1 p2 p3 p4 p5 p6 p7 : Nat) :
    possibleRuleZero [p0, p1, p2, p3, p4, p5, p6, p7] 0 =
      [p0 &&& 252, p1 &&& 251, p2 &&& 247, p3 &&& 239, p4, p5, p6, p7] := by
  have hr : List.range SLOTS = [0, 1, 2, 3, 4] := rfl
  simp only [possibleRuleZero, hr, List.foldl_cons, List.foldl_nil, partitions,
    List.getD, List.get?, Option.getD, List.set]
  split_ifs <;>
    simp_all [List.getD, List.set, Nat.and_assoc,
      show (254 &&& 253 : Nat) = 252 from by decide] <;>
    exact (and_252_of_and_254 p0 (by assumption)).symm

set_option maxHeartbeats 2000000 in
theorem ruleZero1 (p0 p1 p2 p3 p4 p5 p6 p7 : Nat) :
    possibleRuleZero [p0, p1, p2, p3, p4, p5, p6, p7] 1 =
      [p0, p1, p2, p3, p4 &&& 252, p5 &&& 251, p6 &&& 247, p7 &&& 239] := by
  have hr : List.range SLOTS = [0, 1, 2, 3, 4] := rfl
  simp only [possibleRuleZero, hr, List.foldl_cons, List.foldl_nil, partitions,
    List.getD, List.get?, Option.getD, List.set]
  split_ifs <;>
    simp_all [List.getD, List.set, Nat.and_assoc,
      show (254 &&& 253 : Nat) = 252 from by decide] <;>
    exact (and_252_of_and_254 p4 (by assumption)).symm

set_option maxHeartbeats 2000000 in
theorem ruleAll0 (p0 p1 p2 p3 p4 p5 p6 p7 : Nat) :
    possibleRuleAllB (possibleRuleAllA [p0, p1, p2, p3, p4, p5, p6, p7] 0) 0 =
      [collapseTo p0 3, collapseTo p1 4, collapseTo p2 8, collapseTo p3 16,
       p4, p5, p6, p7] := by
  have hr : List.range SLOTS = [0, 1, 2, 3, 4] := rfl
  simp only [possibleRuleAllA, possibleRuleAllB, hr, List.foldl_cons, List.foldl_nil,
    partitions, List.getD, List.get?, Option.getD, List.set, collapseTo]
  norm_num
  split_ifs <;>
    simp_all [List.getD, List.set, Nat.or_assoc, SLOTS, Nat.and_assoc,
      or_eq_zero_iff_false, show (1 ||| 2 : Nat) = 3 from by decide]

set_option maxHeartbeats 2000000 in
theorem ruleAll1 (p0 p1 p2 p3 p4 p5 p6 p7 : Nat) :
    possibleRuleAllB (possibleRuleAllA [p0, p1, p2, p3, p4, p5, p6, p7] 1) 1 =
      [p0, p1, p2, p3, collapseTo p4 3, collapseTo p5 4, collapseTo p6 8,
       collapseTo p7 16] := by
  have hr : List.range SLOTS = [0, 1, 2, 3, 4] := rfl
  simp only [possibleRuleAllA, possibleRuleAllB, hr, List.foldl_cons, List.foldl_nil,
    partitions, List.getD, List.get?, Option.getD, List.set, collapseTo]
  norm_num
  split_ifs <;>
    simp_all [List.getD, List.set, Nat.or_assoc, SLOTS, Nat.and_assoc,
      or_eq_zero_iff_false, show (1 ||| 2 : Nat) = 3 from by decide]

set_option maxHeartbeats 1000000 in
/-- Claim C6: for each partition the Position Refiner applies exactly
two deduction rules.  If the partition's red is 0, each of its colors
loses the position bits of the slots it held in the partition probe
(beige/red held slots 0 and 1, the others one slot each).  If instead
red equals the accumulated real_hits, each partition color with a
nonzero occurrence count has its position mask collapsed to exactly
its probe slots (count field kept), and a color with count 0 is left
with an empty mask; in neither case the masks are unchanged.  The
other partition's four entries are untouched by each pass. -/
theorem claim_C6_position_refiner (p0 p1 p2 p3 p4 p5 p6 p7 g e rnd : Nat)
    (r0 r1 : result_t) (fp : List Nat) (pr : List (Nat × Nat)) :
    ((analyse_possible
        ⟨g, e, rnd, r0, r1, [p0, p1, p2, p3, p4, p5, p6, p7], fp, pr⟩).possible).take 4 =
      (if r0.red = 0 then [p0 &&& 252, p1 &&& 251, p2 &&& 247, p3 &&& 239]
       else if r0.red = r0.real_hits then
         [collapseTo p0 3, collapseTo p1 4, collapseTo p2 8, collapseTo p3 16]
       else [p0, p1, p2, p3]) ∧
    ((analyse_possible
        ⟨g, e, rnd, r0, r1, [p0, p1, p2, p3, p4, p5, p6, p7], fp, pr⟩).possible).drop 4 =
      (if r1.red = 0 then [p4 &&& 252, p5 &&& 251, p6 &&& 247, p7 &&& 239]
       else if r1.red = r1.real_hits then
         [collapseTo p4 3, collapseTo p5 4, collapseTo p6 8, collapseTo p7 16]
       else [p4, p5, p6, p7]) := by
  simp only [analyse_possible, possiblePart, getResult]
  split_ifs <;>
    simp_all [ruleZero0, ruleZero1, ruleAll0, ruleAll1]

theorem commit_part0_initial (arb : Nat → Nat → Nat) :
    commit_guess arb (some (partitions 0)) initial_info =
      ((if RESPONSE_ERROR (arb 1 13376 % 256) > 0 then
          RETURN_ERROR (RESPONSE_ERROR (arb 1 13376 % 256))
        else if RED (arb 1 13376 % 256) = SLOTS then 1 else 0),
       ⟨RED (arb 1 13376 % 256), WHITE (arb 1 13376 % 256),
        TOTAL (arb 1 13376 % 256), 0⟩,
       { initial_info with
         round := 1, guess := 13376, error := RESPONSE_ERROR (arb 1 13376 % 256),
         processed := [(13376, RED (arb 1 13376 % 256))] }) := rfl

theorem commit_part1_state (arb : Nat → Nat → Nat) (st : gameinfo_t) :
    commit_guess arb (some (partitions 1)) st =
      ((if RESPONSE_ERROR (arb ((st.round + 1) % 256) 64868 % 256) > 0 then
          RETURN_ERROR (RESPONSE_ERROR (arb ((st.round + 1) % 256) 64868 % 256))
        else if RED (arb ((st.round + 1) % 256) 64868 % 256) = SLOTS then
          (st.round + 1) % 256 else 0),
       ⟨RED (arb ((st.round + 1) % 256) 64868 % 256),
        WHITE (arb ((st.round + 1) % 256) 64868 % 256),
        TOTAL (arb ((st.round + 1) % 256) 64868 % 256), 0⟩,
       { st with
         round := (st.round + 1) % 256, guess := 64868,
         error := RESPONSE_ERROR (arb ((st.round + 1) % 256) 64868 % 256),
         processed := st.processed ++
           [(64868, RED (arb ((st.round + 1) % 256) 64868 % 256))] }) := by
  have hgt : (generate_request ((init_request (partitions 1)).getD 0)).2 = 64868 := by
    decide
  simp only [commit_guess]
  rw [hgt]

/-- Counterexample to claim C7 as stated: the constant arbiter
responding 5 (red = 5, white = 0) reports total = 5 for the first
partition probe, but the probe is a winning guess, commit_guess
returns the round number, analyse_partitions returns at once, and the
complementary partition's possibility entries are left at 31, not
zeroed. -/
theorem claim_C7_counterexample :
    TOTAL ((fun (_ _ : Nat) => 5) 1 13376 % 256) = 5 ∧
    (analyse_partitions (fun _ _ => 5) initial_info).2.possible.getD 4 0 = 31 ∧
    (analyse_partitions (fun _ _ => 5) initial_info).2.possible.getD 4 0 ≠ 0 :=
  ⟨by decide, by decide, by decide⟩

/-- Claim C7, amended: provided the partition probe's response carries
no error code and is not itself the winning guess (red < 5), the
degeneracy handling holds for either partition's probe: a probe with
total = 5 forces the complementary partition's GuessResult to
red = white = total = 0 and zeroes its four possibility entries, and
the complementary partition is not probed; a probe with total = 0
zeroes that partition's own four entries and forces the complementary
GuessResult to red = 1, white = 0, total = 5.  The four conjuncts are
the first probe reporting 5, the first probe reporting 0, and, when
the first probe is non-degenerate, the second probe reporting 5 or 0
(the second probe's degeneracy overwrites the first result and no
third probe exists). -/
theorem claim_C7_partition_degeneracy (arb : Nat → Nat → Nat) :
    (RESPONSE_ERROR (arb 1 13376 % 256) = 0 → RED (arb 1 13376 % 256) ≠ 5 →
     TOTAL (arb 1 13376 % 256) = 5 →
      (analyse_partitions arb initial_info).1 = 0 ∧
      (analyse_partitions arb initial_info).2.result1 = ⟨0, 0, 0, 0⟩ ∧
      (analyse_partitions arb initial_info).2.possible = [31, 31, 31, 31, 0, 0, 0, 0] ∧
      (analyse_partitions arb initial_info).2.round = 1 ∧
      (analyse_partitions arb initial_info).2.processed =
        [(13376, RED (arb 1 13376 % 256))]) ∧
    (RESPONSE_ERROR (arb 1 13376 % 256) = 0 → RED (arb 1 13376 % 256) ≠ 5 →
     TOTAL (arb 1 13376 % 256) = 0 →
      (analyse_partitions arb initial_info).1 = 0 ∧
      (analyse_partitions arb initial_info).2.result1 = ⟨1, 0, 5, 0⟩ ∧
      (analyse_partitions arb initial_info).2.possible = [0, 0, 0, 0, 31, 31, 31, 31] ∧
      (analyse_partitions arb initial_info).2.round = 1 ∧
      (analyse_partitions arb initial_info).2.processed =
        [(13376, RED (arb 1 13376 % 256))]) ∧
    (RESPONSE_ERROR (arb 1 13376 % 256) = 0 → RED (arb 1 13376 % 256) ≠ 5 →
     TOTAL (arb 1 13376 % 256) ≠ 5 → TOTAL (arb 1 13376 % 256) ≠ 0 →
     RESPONSE_ERROR (arb 2 64868 % 256) = 0 → RED (arb 2 64868 % 256) ≠ 5 →
     TOTAL (arb 2 64868 % 256) = 5 →
      (analyse_partitions arb initial_info).1 = 0 ∧
      (analyse_partitions arb initial_info).2.result0 = ⟨0, 0, 0, 0⟩ ∧
      (analyse_partitions arb initial_info).2.result1 =
        ⟨RED (arb 2 64868 % 256), WHITE (arb 2 64868 % 256), 5, 0⟩ ∧
      (analyse_partitions arb initial_info).2.possible = [0, 0, 0, 0, 31, 31, 31, 31] ∧
      (analyse_partitions arb initial_info).2.round = 2 ∧
      (analyse_partitions arb initial_info).2.processed =
        [(13376, RED (arb 1 13376 % 256)), (64868, RED (arb 2 64868 % 256))]) ∧
    (RESPONSE_ERROR (arb 1 13376 % 256) = 0 → RED (arb 1 13376 % 256) ≠ 5 →
     TOTAL (arb 1 13376 % 256) ≠ 5 → TOTAL (arb 1 13376 % 256) ≠ 0 →
     RESPONSE_ERROR (arb 2 64868 % 256) = 0 → RED (arb 2 64868 % 256) ≠ 5 →
     TOTAL (arb 2 64868 % 256) = 0 →
      (analyse_partitions arb initial_info).1 = 0 ∧
      (analyse_partitions arb initial_info).2.result0 = ⟨1, 0, 5, 0⟩ ∧
      (analyse_partitions arb initial_info).2.result1 =
        ⟨RED (arb 2 64868 % 256), WHITE (arb 2 64868 % 256), 0, 0⟩ ∧
      (analyse_partitions arb initial_info).2.possible = [31, 31, 31, 31, 0, 0, 0, 0] ∧
      (analyse_partitions arb initial_info).2.round = 2 ∧
      (analyse_partitions arb initial_info).2.processed =
        [(13376, RED (arb 1 13376 % 256)), (64868, RED (arb 2 64868 % 256))]) := by
  refine ⟨?_, ?_, ?_, ?_⟩
  · intro herr0 hred0 htot0
    have h5 : RED (arb 1 13376 % 256) ≠ SLOTS := hred0
    simp only [analyse_partitions, partitionsLoop, commit_part0_initial, herr0, h5,
      gt_iff_lt, Nat.lt_irrefl, if_false, ite_false, ite_true]
    simp [setResultRWT, getResult, setResultVals, clearPossible, setPoss,
      initial_info, htot0, partitions, SLOTS, List.set]
  · intro herr0 hred0 htot0
    have h5 : RED (arb 1 13376 % 256) ≠ SLOTS := hred0
    simp only [analyse_partitions, partitionsLoop, commit_part0_initial, herr0, h5,
      gt_iff_lt, Nat.lt_irrefl, if_false, ite_false, ite_true]
    simp [setResultRWT, getResult, setResultVals, clearPossible, setPoss,
      initial_info, htot0, partitions, SLOTS, List.set]
  · intro herr0 hred0 htA htB herr1 hred1 htot1
    have h5 : RED (arb 1 13376 % 256) ≠ SLOTS := hred0
    have hred1' : RED (arb 2 64868 % 256) ≠ SLOTS := hred1
    simp only [analyse_partitions, partitionsLoop, commit_part0_initial, herr0, h5,
      gt_iff_lt, Nat.lt_irrefl, if_false, ite_false, ite_true]
    simp [setResultRWT, getResult, setResultVals, clearPossible, setPoss,
      initial_info, htA, htB, commit_part1_state, herr1, hred1, hred1', htot1,
      SLOTS, List.set]
  · intro herr0 hred0 htA htB herr1 hred1 htot1
    have h5 : RED (arb 1 13376 % 256) ≠ SLOTS := hred0
    have hred1' : RED (arb 2 64868 % 256) ≠ SLOTS := hred1
    simp only [analyse_partitions, partitionsLoop, commit_part0_initial, herr0, h5,
      gt_iff_lt, Nat.lt_irrefl, if_false, ite_false, ite_true]
    simp [setResultRWT, getResult, setResultVals, clearPossible, setPoss,
      initial_info, htA, htB, commit_part1_state, herr1, hred1, hred1', htot1,
      SLOTS, List.set]

/-- Witness for the amended claim C7: an arbiter answering red 2,
white 3 (total 5, no error, not a win) to the first partition probe. -/
theorem claim_C7_partition_degeneracy_witness :
    (analyse_partitions (fun _ _ => 26) initial_info).1 = 0 ∧
    (analyse_partitions (fun _ _ => 26) initial_info).2.result1 = ⟨0, 0, 0, 0⟩ ∧
    (analyse_partitions (fun _ _ => 26) initial_info).2.possible =
      [31, 31, 31, 31, 0, 0, 0, 0] ∧
    (analyse_partitions (fun _ _ => 26) initial_info).2.round = 1 ∧
    (analyse_partitions (fun _ _ => 26) initial_info).2.processed =
      [(13376, RED ((fun (_ _ : Nat) => 26) 1 13376 % 256))] :=
  (claim_C7_partition_degeneracy (fun _ _ => 26)).1
    (by decide) (by decide) (by decide)

/-- Specification helper: sum of the occurrence-count fields (high 3
bits, value >> 5) over an array of possible entries. -/
def sumHigh : List Nat → Nat
  | [] => 0
  | p :: ps => (p >>> 5) + sumHigh ps

/-- Specification helper: total number of occurrences of the colors of
`cs` in the secret. -/
def occSum (secret cs : List Nat) : Nat :=
  (cs.map (fun c => secret.count c)).sum

theorem sumHigh_set (ps : List Nat) (k v : Nat) (hk : k < ps.length) :
    sumHigh (ps.set k v) + (ps.getD k 0) >>> 5 = sumHigh ps + v >>> 5 := by
  induction ps generalizing k with
  | nil => simp at hk
  | cons p ps ih =>
    cases k with
    | zero => simp [sumHigh, List.set, List.getD]; omega
    | succ k =>
      have hk' : k < ps.length := by simpa using hk
      have := ih k hk'
      simp [sumHigh, List.set, List.getD] at this ⊢
      omega

theorem sumHigh_set_same_high (ps : List Nat) (k v : Nat) (hk : k < ps.length)
    (h : (ps.getD k 0) >>> 5 = v >>> 5) :
    sumHigh (ps.set k v) = sumHigh ps := by
  have := sumHigh_set ps k v hk
  omega

theorem sumHigh_zero_of_small (ps : List Nat)
    (h : ∀ p ∈ ps, p < 32) : sumHigh ps = 0 := by
  induction ps with
  | nil => rfl
  | cons p ps ih =>
    have h1 : p >>> 5 = 0 := by
      have : p < 32 := h p (List.mem_cons_self p ps)
      omega
    simp [sumHigh, h1, ih (fun q hq => h q (List.mem_cons_of_mem p hq))]

/-- The transmitted 16-bit value of the monochrome probe of color k
(parity bit included). -/
def monoTrans (k : Nat) : Nat :=
  (generate_request ((init_request [k, k, k, k, k]).getD 0)).2

theorem commit_mono (arb : Nat → Nat → Nat) (secret : List Nat)
    (harb : ∀ r k, k < 8 → arb r (monoTrans k) = secret.count k)
    (hlen : secret.length = 5) (k : Nat) (hk : k < 8) (st : gameinfo_t) :
    commit_guess arb (some [k, k, k, k, k]) st =
      ((if secret.count k = 5 then (st.round + 1) % 256 else 0),
       ⟨secret.count k, 0, secret.count k, 0⟩,
       { st with
         round := (st.round + 1) % 256, guess := monoTrans k, error := 0,
         processed := st.processed ++ [(monoTrans k, secret.count k)] }) := by
  have hcm : secret.count k ≤ 5 := hlen ▸ List.count_le_length k secret
  have hresp : arb ((st.round + 1) % 256) (monoTrans k) % 256 = secret.count k := by
    rw [harb ((st.round + 1) % 256) k hk, Nat.mod_eq_of_lt (by omega)]
  have herr : RESPONSE_ERROR (secret.count k) = 0 := by
    show secret.count k >>> 6 = 0
    omega
  have hred : RED (secret.count k) = secret.count k := by
    show secret.count k &&& 7 = secret.count k
    have h8 : secret.count k &&& 7 = secret.count k % 8 := by
      have := Nat.and_pow_two_sub_one_eq_mod (secret.count k) 3
      norm_num at this
      exact this
    omega
  have hwhite : WHITE (secret.count k) = 0 := by
    show (secret.count k &&& (0x7 <<< 3)) >>> 3 = 0
    set c := secret.count k with hc
    interval_cases c <;> decide
  simp only [commit_guess,
    show (generate_request ((init_request [k, k, k, k, k]).getD 0)).2 = monoTrans k
      from rfl, hresp, herr, hred, hwhite, TOTAL]
  have h5 : (SLOTS = 5) := rfl
  norm_num [RETURN_ERROR, h5]

theorem setPoss_fields (st : gameinfo_t) (k v : Nat) :
    (setPoss st k v).round = st.round ∧ (setPoss st k v).processed = st.processed ∧
    (setPoss st k v).result0 = st.result0 ∧ (setPoss st k v).result1 = st.result1 ∧
    (setPoss st k v).possible = st.possible.set k v := by
  simp [setPoss]

theorem addRealHits_fields (st : gameinfo_t) (i t : Nat) :
    (addRealHits st i t).round = st.round ∧ (addRealHits st i t).processed = st.processed ∧
    (addRealHits st i t).possible = st.possible := by
  by_cases h : i = 0 <;> simp [addRealHits, h]

theorem getPoss_setPoss (st : gameinfo_t) (k v c : Nat) :
    getPoss (setPoss st k v) c =
      if c = k ∧ k < st.possible.length then v else getPoss st c := by
  by_cases h1 : c = k
  · subst h1
    by_cases h2 : c < st.possible.length
    · simp [getPoss, setPoss, List.getElem?_set_self h2, h2]
    · have hset : st.possible.set c v = st.possible := List.set_eq_of_length_le (by omega)
      simp [getPoss, setPoss, hset, h2]
  · simp [getPoss, setPoss, List.getElem?_set_ne (fun h => h1 h.symm), h1]

theorem clearPossible_spec : ∀ (n : Nat) (st : gameinfo_t) (s : Nat),
    (clearPossible st s n).possible.length = st.possible.length ∧
    (clearPossible st s n).round = st.round ∧
    (clearPossible st s n).processed = st.processed ∧
    ∀ c, getPoss (clearPossible st s n) c =
      if s ≤ c ∧ c < s + n ∧ c < st.possible.length then 0 else getPoss st c := by
  intro n
  induction n with
  | zero =>
    intro st s
    refine ⟨rfl, rfl, rfl, ?_⟩
    intro c
    rw [if_neg (by omega)]
    rfl
  | succ n ih =>
    intro st s
    obtain ⟨ihl, ihr, ihp, ihg⟩ := ih (setPoss st s 0) (s + 1)
    have hlen : (setPoss st s 0).possible.length = st.possible.length := by
      simp [setPoss]
    have hstep : clearPossible st s (n + 1) = clearPossible (setPoss st s 0) (s + 1) n :=
      rfl
    refine ⟨by rw [hstep, ihl, hlen], by rw [hstep, ihr]; rfl, by rw [hstep, ihp]; rfl, ?_⟩
    intro c
    rw [hstep, ihg c, getPoss_setPoss, hlen]
    by_cases h1 : s + 1 ≤ c ∧ c < s + 1 + n ∧ c < st.possible.length
    · rw [if_pos h1, if_pos (by omega)]
    · rw [if_neg h1]
      by_cases h2 : c = s ∧ s < st.possible.length
      · rw [if_pos h2, if_pos (by omega)]
      · rw [if_neg h2, if_neg (by omega)]

theorem shiftRight_or_5 (a b : Nat) : (a ||| b) >>> 5 = (a >>> 5) ||| (b >>> 5) := by
  apply Nat.eq_of_testBit_eq
  intro i
  simp [Nat.testBit_shiftRight, Nat.testBit_or]

theorem high_of_or_shift (p c : Nat) (hp : p < 32) : (p ||| (c <<< 5)) >>> 5 = c := by
  rw [shiftRight_or_5, Nat.shiftLeft_shiftRight, show p >>> 5 = 0 by omega]
  simp

theorem or_shift_lt_256 (p c : Nat) (hp : p < 32) (hc : c ≤ 5) :
    (p ||| (c <<< 5)) < 256 := by
  have h1 : p < 2 ^ 8 := by omega
  have h2 : c <<< 5 < 2 ^ 8 := by
    rw [Nat.shiftLeft_eq]
    omega
  exact Nat.or_lt_two_pow h1 h2

/-- The colors whose occurrence counts are still undetermined after
the partition-i probing loop: the three probe colors of partition 1
(when i = 0) and the two 4th colors (3 and 7). -/
def restCols : Nat → List Nat
  | 0 => List.range' 4 3 ++ [3, 7]
  | _ => [3, 7]

theorem occSum_cons (secret : List Nat) (a : Nat) (l : List Nat) :
    occSum secret (a :: l) = secret.count a + occSum secret l := by
  simp [occSum]

theorem occSum_append (secret : List Nat) (l₁ l₂ : List Nat) :
    occSum secret (l₁ ++ l₂) = occSum secret l₁ + occSum secret l₂ := by
  simp [occSum]

theorem sumHigh_clear : ∀ (n : Nat) (st : gameinfo_t) (s : Nat),
    (∀ c, s ≤ c → c < s + n → getPoss st c < 32) →
    sumHigh (clearPossible st s n).possible = sumHigh st.possible := by
  intro n
  induction n with
  | zero => intro st s _; rfl
  | succ n ih =>
    intro st s h
    have hstep : clearPossible st s (n + 1) = clearPossible (setPoss st s 0) (s + 1) n :=
      rfl
    have h1 : ∀ c, s + 1 ≤ c → c < s + 1 + n → getPoss (setPoss st s 0) c < 32 := by
      intro c hc1 hc2
      rw [getPoss_setPoss, if_neg (by omega)]
      exact h c (by omega) (by omega)
    have h2 : sumHigh (setPoss st s 0).possible = sumHigh st.possible := by
      by_cases hs : s < st.possible.length
      · show sumHigh (st.possible.set s 0) = sumHigh st.possible
        apply sumHigh_set_same_high st.possible s 0 hs
        have h3 := h s (Nat.le_refl s) (by omega)
        simp only [getPoss] at h3
        omega
      · show sumHigh (st.possible.set s 0) = sumHigh st.possible
        rw [List.set_eq_of_length_le (by omega)]
    rw [hstep, ih (setPoss st s 0) (s + 1) h1, h2]

/-- The state after a successful monochrome probe of color k reporting m
occurrences: real_hits of partition i accumulated and the count stored in
the high 3 bits of possible[k] (the let chain info₂/info₃ of the loop
body). -/
def stepState (st : gameinfo_t) (i k m : Nat) : gameinfo_t :=
  setPoss (addRealHits st i m) k
    ((getPoss (addRealHits st i m) k ||| (m <<< SLOTS)) % 256)

theorem getPoss_addRealHits (x : gameinfo_t) (j m c : Nat) :
    getPoss (addRealHits x j m) c = getPoss x c := by
  by_cases h : j = 0 <;> simp [addRealHits, getPoss, h]

theorem stepState_props (st : gameinfo_t) (i k m : Nat)
    (hplen : st.possible.length = 8) (hk8 : k < 8)
    (hkpos : getPoss st k < 32) (hm : m ≤ 5) :
    (stepState st i k m).possible.length = 8 ∧
    sumHigh (stepState st i k m).possible = sumHigh st.possible + m ∧
    ∀ c, c ≠ k → getPoss (stepState st i k m) c = getPoss st c := by
  have hpa : (addRealHits st i m).possible = st.possible :=
    (addRealHits_fields st i m).2.2
  have hga : getPoss (addRealHits st i m) k = getPoss st k :=
    getPoss_addRealHits st i m k
  have hv : (getPoss st k ||| (m <<< SLOTS)) % 256 = getPoss st k ||| (m <<< SLOTS) :=
    Nat.mod_eq_of_lt (or_shift_lt_256 _ _ hkpos hm)
  have hpos : (stepState st i k m).possible =
      st.possible.set k (getPoss st k ||| (m <<< SLOTS)) := by
    simp only [stepState, setPoss, hga, hv, hpa]
  refine ⟨?_, ?_, ?_⟩
  · rw [hpos, List.length_set]
    exact hplen
  · rw [hpos]
    have hset := sumHigh_set st.possible k (getPoss st k ||| (m <<< SLOTS)) (by omega)
    have hgd : st.possible.getD k 0 >>> 5 = 0 := by
      simp only [getPoss] at hkpos
      omega
    have hhigh : (getPoss st k ||| (m <<< SLOTS)) >>> 5 = m :=
      high_of_or_shift _ _ hkpos
    omega
  · intro c hck
    show getPoss (setPoss (addRealHits st i m) k _) c = getPoss st c
    rw [getPoss_setPoss, if_neg (fun h => hck h.1), getPoss_addRealHits]

theorem fourth_mem_rest (i : Nat) (hi : i < 2) : 4 * i + 3 ∈ restCols i := by
  interval_cases i <;> decide

theorem not_mem_rest (i k : Nat) (hi : i < 2) (hlow : 4 * i ≤ k)
    (hhigh : k < 4 * i + 3) : k ∉ restCols i := by
  interval_cases i <;>
    · intro hmem
      simp [restCols, List.range'] at hmem
      omega

set_option maxHeartbeats 2000000 in
theorem colorProbe_inv (arb : Nat → Nat → Nat) (secret : List Nat)
    (harb : ∀ r k, k < 8 → arb r (monoTrans k) = secret.count k)
    (hlen : secret.length = 5) (i : Nat) (hi : i < 2) :
    ∀ cnt k found total st,
      st.possible.length = 8 → k + cnt = 4 * i + 3 → cnt ≤ 3 →
      sumHigh st.possible = total →
      total + occSum secret (List.range' k cnt ++ restCols i) ≤ 5 →
      (∀ c ∈ List.range' k cnt ++ restCols i, getPoss st c < 32) →
      (∀ r fnd t st', colorProbe arb i cnt k found total st = (some r, fnd, t, st') →
         r ≠ 0) ∧
      (∀ fnd t st', colorProbe arb i cnt k found total st = (none, fnd, t, st') →
         st'.possible.length = 8 ∧ sumHigh st'.possible = t ∧
         t + occSum secret (restCols i) ≤ 5 ∧
         ∀ c ∈ restCols i, getPoss st' c < 32) := by
  intro cnt
  induction cnt with
  | zero =>
    intro k found total st hplen hk hcnt hsum hocc hsmall
    constructor
    · intro r fnd t st' heq
      simp [colorProbe] at heq
    · intro fnd t st' heq
      simp only [colorProbe, Prod.mk.injEq] at heq
      obtain ⟨-, h1, h2, h3⟩ := heq
      subst h1; subst h2; subst h3
      refine ⟨hplen, hsum, ?_, ?_⟩
      · simpa [occSum] using hocc
      · intro c hc
        exact hsmall c (List.mem_append_right _ hc)
  | succ cnt ih =>
    intro k found total st hplen hk hcnt hsum hocc hsmall
    have hk8 : k < 8 := by omega
    have hklow : 4 * i ≤ k := by omega
    have hcount5 : secret.count k ≤ 5 := hlen ▸ List.count_le_length k secret
    have hrange : List.range' k (cnt + 1) = k :: List.range' (k + 1) cnt := rfl
    have hocc' : total + (secret.count k +
        occSum secret (List.range' (k + 1) cnt ++ restCols i)) ≤ 5 := by
      rw [hrange] at hocc
      rw [show (k :: List.range' (k + 1) cnt) ++ restCols i =
          k :: (List.range' (k + 1) cnt ++ restCols i) from rfl, occSum_cons] at hocc
      omega
    have hknotin : k ∉ List.range' (k + 1) cnt ++ restCols i := by
      intro hmem
      rcases List.mem_append.1 hmem with hmem1 | hmem2
      · rw [List.mem_range'_1] at hmem1
        omega
      · exact not_mem_rest i k hi hklow (by omega) hmem2
    have hsmall' : ∀ c ∈ List.range' (k + 1) cnt ++ restCols i, getPoss st c < 32 := by
      intro c hc
      apply hsmall
      rw [hrange]
      rw [show (k :: List.range' (k + 1) cnt) ++ restCols i =
          k :: (List.range' (k + 1) cnt ++ restCols i) from rfl]
      exact List.mem_cons_of_mem k hc
    have hkpos : getPoss st k < 32 := by
      apply hsmall
      rw [hrange]
      exact List.mem_append_left _ (List.mem_cons_self _ _)
    have hbody : colorProbe arb i (cnt + 1) k found total st =
        (let (ret, res, info₁) := commit_guess arb (some [k, k, k, k, k]) st
         if ret ≠ 0 then (some ret, found, total, info₁)
         else if res.total = 0 then
           colorProbe arb i cnt (k + 1) found total (setPoss info₁ k 0)
         else
           let total' := (total + res.total) % 256
           let info₃ := stepState info₁ i k res.total
           let found' := (found + 1) % 256
           if found' = (getResult info₃ i).total ∨ total' = SLOTS ∨
              (i = 0 ∧ total' + (getResult info₃ 1).total = SLOTS) then
             (none, found', total', clearPossible info₃ (k + 1) (cnt + 1))
           else colorProbe arb i cnt (k + 1) found' total' info₃) := rfl
    rw [hbody, commit_mono arb secret harb hlen k hk8 st]
    dsimp only
    set info₁ := ({ st with
      guess := monoTrans k
      error := 0
      round := (st.round + 1) % 256
      processed := st.processed ++ [(monoTrans k, secret.count k)] } : gameinfo_t) with hinfo₁
    have hP8 : info₁.possible.length = 8 := hplen
    have hkp₁ : getPoss info₁ k < 32 := hkpos
    have hsum₁ : sumHigh info₁.possible = total := hsum
    have hsm₁ : ∀ c, getPoss info₁ c = getPoss st c := fun _ => rfl
    obtain ⟨hA1, hA2, hA3⟩ :=
      stepState_props info₁ i k (secret.count k) hP8 hk8 hkp₁ hcount5
    by_cases hret : (if List.count k secret = 5 then (st.round + 1) % 256 else 0) ≠ 0
    case pos =>
      rw [if_pos hret]
      constructor
      · intro r fnd t st' heq
        simp only [Prod.mk.injEq, Option.some.injEq] at heq
        obtain ⟨h1, -⟩ := heq
        subst h1
        exact hret
      · intro fnd t st' heq
        simp at heq
    case neg =>
    rw [if_neg hret]
    by_cases hzero : List.count k secret = 0
    case pos =>
      rw [if_pos hzero]
      refine ih (k + 1) found total (setPoss info₁ k 0) ?_ (by omega) (by omega) ?_ ?_ ?_
      · simp [setPoss, hP8]
      · show sumHigh (info₁.possible.set k 0) = total
        have h0 : info₁.possible.getD k 0 >>> 5 = 0 >>> 5 := by
          show st.possible.getD k 0 >>> 5 = 0 >>> 5
          have h1 : st.possible.getD k 0 < 32 := hkpos
          omega
        rw [sumHigh_set_same_high info₁.possible k 0 (by omega) h0]
        exact hsum₁
      · omega
      · intro c hc
        rw [getPoss_setPoss]
        split_ifs with h
        · omega
        · rw [hsm₁ c]
          exact hsmall' c hc
    case neg =>
    rw [if_neg hzero]
    have htot : (total + secret.count k) % 256 = total + secret.count k :=
      Nat.mod_eq_of_lt (by omega)
    by_cases hbrk : (found + 1) % 256 =
        (getResult (stepState info₁ i k (List.count k secret)) i).total ∨
        (total + List.count k secret) % 256 = SLOTS ∨
        (i = 0 ∧ (total + List.count k secret) % 256 +
          (getResult (stepState info₁ i k (List.count k secret)) 1).total = SLOTS)
    case pos =>
      rw [if_pos hbrk]
      constructor
      · intro r fnd t st' heq
        simp at heq
      · intro fnd t st' heq
        simp only [Prod.mk.injEq] at heq
        obtain ⟨-, h2, h3, h4⟩ := heq
        subst h2
        subst h3
        subst h4
        have hrange' : ∀ c, k + 1 ≤ c → c < k + 1 + (cnt + 1) →
            getPoss (stepState info₁ i k (secret.count k)) c < 32 := by
          intro c hc1 hc2
          rw [hA3 c (by omega), hsm₁ c]
          by_cases hc3 : c < k + 1 + cnt
          · exact hsmall' c (List.mem_append_left _ (List.mem_range'_1.2 ⟨hc1, hc3⟩))
          · have hc4 : c = 4 * i + 3 := by omega
            rw [hc4]
            exact hsmall' _ (List.mem_append_right _ (fourth_mem_rest i hi))
        refine ⟨?_, ?_, ?_, ?_⟩
        · rw [(clearPossible_spec _ _ _).1]
          exact hA1
        · rw [sumHigh_clear (cnt + 1) (stepState info₁ i k (secret.count k)) (k + 1) hrange',
            hA2, hsum₁, htot]
        · rw [htot]
          have hap := occSum_append secret (List.range' (k + 1) cnt) (restCols i)
          omega
        · intro c hc
          rw [(clearPossible_spec _ _ _).2.2.2 c]
          split_ifs with h
          · omega
          · have hck : c ≠ k := by
              intro h'
              exact not_mem_rest i k hi hklow (by omega) (h' ▸ hc)
            rw [hA3 c hck, hsm₁ c]
            exact hsmall' c (List.mem_append_right _ hc)
    case neg =>
      rw [if_neg hbrk]
      refine ih (k + 1) ((found + 1) % 256) ((total + secret.count k) % 256)
        (stepState info₁ i k (secret.count k)) hA1 (by omega) (by omega) ?_ ?_ ?_
      · rw [hA2, hsum₁, htot]
      · rw [htot]
        omega
      · intro c hc
        have hck : c ≠ k := fun h' => hknotin (h' ▸ hc)
        rw [hA3 c hck, hsm₁ c]
        exact hsmall' c hc

theorem count_single_sum (secret : List Nat) (c : Nat) :
    (secret.map (fun s => if s = c then 1 else 0)).sum = secret.count c := by
  induction secret with
  | nil => rfl
  | cons a l ih =>
    simp only [List.map_cons, List.sum_cons, List.count_cons, ih]
    by_cases h : a = c
    · simp [h]
      omega
    · simp [h]

theorem sum_map_add (l : List Nat) (f g : Nat → Nat) :
    (l.map (fun x => f x + g x)).sum = (l.map f).sum + (l.map g).sum := by
  induction l with
  | nil => rfl
  | cons a l ih =>
    simp only [List.map_cons, List.sum_cons, ih]
    omega

theorem count_cons_flip (cs : List Nat) (c s : Nat) :
    (c :: cs).count s = (if s = c then 1 else 0) + cs.count s := by
  rw [List.count_cons]
  by_cases h : s = c
  · simp [h]
    omega
  · simp [h]
    omega

theorem occSum_flip (secret cs : List Nat) :
    occSum secret cs = (secret.map (fun s => cs.count s)).sum := by
  induction cs with
  | nil => simp [occSum]
  | cons c cs ih =>
    rw [occSum_cons, ih]
    have hpt : secret.map (fun s => (c :: cs).count s) =
        secret.map (fun s => (if s = c then 1 else 0) + cs.count s) :=
      List.map_congr_left (fun s _ => count_cons_flip cs c s)
    rw [hpt, sum_map_add, count_single_sum]

theorem occSum_nodup_le (secret cs : List Nat) (h : cs.Nodup) :
    occSum secret cs ≤ secret.length := by
  rw [occSum_flip]
  induction secret with
  | nil => simp
  | cons a l ih =>
    simp only [List.map_cons, List.sum_cons, List.length_cons]
    have h1 : cs.count a ≤ 1 := List.nodup_iff_count_le_one.1 h a
    omega

theorem occSum_pair (secret : List Nat) (a b : Nat) :
    occSum secret [a, b] = secret.count a + secret.count b := by
  simp [occSum]

theorem getD_set_ne : ∀ (l : List Nat) (i j v : Nat), j ≠ i →
    (l.set i v).getD j 0 = l.getD j 0
  | [], _, _, _, _ => by simp
  | x :: xs, 0, j, v, h => by
    cases j with
    | zero => exact absurd rfl h
    | succ j => rfl
  | x :: xs, i + 1, 0, v, h => rfl
  | x :: xs, i + 1, j + 1, v, h =>
    getD_set_ne xs i j v (fun hh => h (by omega))

/-- remainderFinish credits the missing 5 - total occurrences to the
partition's 4th color, bringing the stored counts to exactly 5. -/
theorem remainderFinish_sum (info : gameinfo_t) (i total : Nat) (hi : i < 2)
    (hplen : info.possible.length = 8)
    (hsum : sumHigh info.possible = total) (htot : total ≤ 5)
    (hsm : getPoss info (i * 4 + 3) < 32) :
    sumHigh (remainderFinish info i total).possible = 5 := by
  have hsm' := hsm
  simp only [getPoss] at hsm'
  have hrf : (remainderFinish info i total).possible =
      (if 5 - total = 0 then setPoss info (i * 4 + 3) 0
       else setPoss info (i * 4 + 3)
         ((getPoss info (i * 4 + 3) ||| ((5 - total) <<< SLOTS)) % 256)).possible :=
    (addRealHits_fields _ _ _).2.2
  rw [hrf]
  by_cases h0 : 5 - total = 0
  · rw [if_pos h0]
    show sumHigh (info.possible.set (i * 4 + 3) 0) = 5
    rw [sumHigh_set_same_high info.possible (i * 4 + 3) 0 (by omega) (by omega), hsum]
    omega
  · rw [if_neg h0]
    show sumHigh (info.possible.set (i * 4 + 3)
      ((getPoss info (i * 4 + 3) ||| ((5 - total) <<< SLOTS)) % 256)) = 5
    have hv : (getPoss info (i * 4 + 3) ||| ((5 - total) <<< SLOTS)) % 256 =
        getPoss info (i * 4 + 3) ||| ((5 - total) <<< SLOTS) :=
      Nat.mod_eq_of_lt (or_shift_lt_256 _ _ hsm (by omega))
    rw [hv]
    have hset := sumHigh_set info.possible (i * 4 + 3)
      (getPoss info (i * 4 + 3) ||| ((5 - total) <<< SLOTS)) (by omega)
    have hhigh : (getPoss info (i * 4 + 3) ||| ((5 - total) <<< SLOTS)) >>> 5 = 5 - total :=
      high_of_or_shift _ _ hsm
    omega

/-- colorPartition propagates the probing invariant: a `some` return is
nonzero, and a `none` return carries the running total as the sum of
stored counts, with the unresolved colors still small. -/
theorem colorPartition_inv (arb : Nat → Nat → Nat) (secret : List Nat)
    (harb : ∀ r k, k < 8 → arb r (monoTrans k) = secret.count k)
    (hlen : secret.length = 5) (i : Nat) (hi : i < 2)
    (total : Nat) (st : gameinfo_t)
    (hplen : st.possible.length = 8)
    (hsum : sumHigh st.possible = total)
    (hocc : total + occSum secret (List.range' (i * 4) 3 ++ restCols i) ≤ 5)
    (hsmall : ∀ c ∈ List.range' (i * 4) 3 ++ restCols i, getPoss st c < 32) :
    (∀ r t lcm st', colorPartition arb i total st = (some r, t, lcm, st') → r ≠ 0) ∧
    (∀ t lcm st', colorPartition arb i total st = (none, t, lcm, st') →
       st'.possible.length = 8 ∧ sumHigh st'.possible = t ∧
       t + occSum secret (restCols i) ≤ 5 ∧ ∀ c ∈ restCols i, getPoss st' c < 32) := by
  obtain ⟨inv1, inv2⟩ := colorProbe_inv arb secret harb hlen i hi 3 (i * 4) 0 total st
    hplen (by omega) (by omega) hsum hocc hsmall
  by_cases hcond : (getResult st i).total > 0
  · rcases hcp : colorProbe arb i 3 (i * 4) 0 total st with ⟨o, found, t', st₁⟩
    cases o with
    | some ret =>
      have hfold : colorPartition arb i total st = (some ret, total, false, st₁) := by
        simp only [colorPartition, if_pos hcond, hcp]
      constructor
      · intro r t lcm st' heq
        rw [hfold] at heq
        simp only [Prod.mk.injEq, Option.some.injEq] at heq
        obtain ⟨h1, -⟩ := heq
        subst h1
        exact inv1 ret found t' st₁ hcp
      · intro t lcm st' heq
        rw [hfold] at heq
        simp at heq
    | none =>
      have hfold : colorPartition arb i total st =
          (none, t', decide (found < (getResult st₁ i).total), st₁) := by
        simp only [colorPartition, if_pos hcond, hcp]
      constructor
      · intro r t lcm st' heq
        rw [hfold] at heq
        simp at heq
      · intro t lcm st' heq
        rw [hfold] at heq
        simp only [Prod.mk.injEq] at heq
        obtain ⟨-, h2, -, h4⟩ := heq
        subst h2
        subst h4
        exact inv2 found t' st₁ hcp
  · have hfold : colorPartition arb i total st = (none, total, false, st) := by
      simp only [colorPartition, if_neg hcond]
    constructor
    · intro r t lcm st' heq
      rw [hfold] at heq
      simp at heq
    · intro t lcm st' heq
      rw [hfold] at heq
      simp only [Prod.mk.injEq] at heq
      obtain ⟨-, h2, -, h4⟩ := heq
      subst h2
      subst h4
      have hap := occSum_append secret (List.range' (i * 4) 3) (restCols i)
      refine ⟨hplen, hsum, by omega, ?_⟩
      intro c hc
      exact hsmall c (List.mem_append_right _ hc)

theorem getD_lt_of_forall_mem : ∀ (l : List Nat) (n b : Nat), 0 < b →
    (∀ p ∈ l, p < b) → l.getD n 0 < b
  | [], _, _, hb, _ => hb
  | p :: ps, 0, _, _, h => h p (List.mem_cons_self p ps)
  | p :: ps, n + 1, b, hb, h =>
    getD_lt_of_forall_mem ps n b hb (fun q hq => h q (List.mem_cons_of_mem p hq))

/-- C2: whenever analyse_colors returns 0, the occurrence counts stored
in the high 3 bits of the 8 possible[] entries sum to exactly 5 — in
every branch (skipped partitions, early loop break, unresolved 4th
colors, the extra color-7 probe, or the direct remainder), for every
arbiter whose responses to the monochrome probes are consistent with a
fixed valid 5-slot secret, from any entry state whose possible[]
entries carry no occurrence counts yet. -/
theorem claim_C2_color_sum (arb : Nat → Nat → Nat) (secret : List Nat)
    (hlen : secret.length = 5) (_hvalid : ∀ s ∈ secret, s < 8)
    (harb : ∀ r k, k < 8 → arb r (monoTrans k) = secret.count k)
    (st : gameinfo_t) (hplen : st.possible.length = 8)
    (hsmall : ∀ p ∈ st.possible, p < 32) :
    ∀ st', analyse_colors arb st = (0, st') → sumHigh st'.possible = 5 := by
  intro st' heq
  have hgp : ∀ c, getPoss st c < 32 := by
    intro c
    show st.possible.getD c 0 < 32
    exact getD_lt_of_forall_mem st.possible c 32 (by omega) hsmall
  have hsum0 : sumHigh st.possible = 0 := sumHigh_zero_of_small _ hsmall
  obtain ⟨cp01, cp02⟩ := colorPartition_inv arb secret harb hlen 0 (by omega) 0 st hplen
    hsum0
    (by have h := occSum_nodup_le secret (List.range' (0 * 4) 3 ++ restCols 0) (by decide)
        omega)
    (fun c _ => hgp c)
  rcases hc0 : colorPartition arb 0 0 st with ⟨o0, t0, lcm0, st0⟩
  cases o0 with
  | some r0 =>
    simp only [analyse_colors, hc0, Prod.mk.injEq] at heq
    exact absurd heq.1 (cp01 r0 t0 lcm0 st0 hc0)
  | none =>
    obtain ⟨hplen0, hsum0', hocc0, hsm0⟩ := cp02 t0 lcm0 st0 hc0
    obtain ⟨cp11, cp12⟩ := colorPartition_inv arb secret harb hlen 1 (by omega) t0 st0 hplen0
      hsum0'
      (by show t0 + occSum secret (List.range' 4 3 ++ [3, 7]) ≤ 5
          have h3 : occSum secret (restCols 0) =
              occSum secret (List.range' 4 3 ++ [3, 7]) := rfl
          omega)
      (fun c hc => hsm0 c hc)
    rcases hc1 : colorPartition arb 1 t0 st0 with ⟨o1, t1, lcm1, st1⟩
    cases o1 with
    | some r1 =>
      simp only [analyse_colors, hc0, hc1, Prod.mk.injEq] at heq
      exact absurd heq.1 (cp11 r1 t1 lcm1 st1 hc1)
    | none =>
      obtain ⟨hplen1, hsum1', hocc1, hsm1⟩ := cp12 t1 lcm1 st1 hc1
      simp only [analyse_colors, hc0, hc1] at heq
      have hS : SLOTS = 5 := rfl
      have hpair := occSum_pair secret 3 7
      have hocc1' : t1 + occSum secret [3, 7] ≤ 5 := hocc1
      by_cases ht1 : t1 < SLOTS
      case neg =>
        rw [if_neg ht1] at heq
        simp only [Prod.mk.injEq] at heq
        obtain ⟨-, h2⟩ := heq
        subst h2
        show sumHigh ((st1.possible.set 3 0).set 7 0) = 5
        have hg3 : st1.possible.getD 3 0 < 32 := hsm1 3 (by decide)
        have hg7 : st1.possible.getD 7 0 < 32 := hsm1 7 (by decide)
        have e2 : sumHigh (st1.possible.set 3 0) = sumHigh st1.possible :=
          sumHigh_set_same_high _ 3 0 (by omega) (by omega)
        have h70 : (st1.possible.set 3 0).getD 7 0 = st1.possible.getD 7 0 :=
          getD_set_ne _ 3 7 0 (by omega)
        have e1 : sumHigh ((st1.possible.set 3 0).set 7 0) = sumHigh (st1.possible.set 3 0) :=
          sumHigh_set_same_high _ 7 0 (by rw [List.length_set]; omega) (by omega)
        omega
      case pos =>
        rw [if_pos ht1] at heq
        by_cases hl0 : lcm0 = true
        case neg =>
          rw [if_neg hl0] at heq
          simp only [Prod.mk.injEq] at heq
          obtain ⟨-, h2⟩ := heq
          subst h2
          exact remainderFinish_sum st1 1 t1 (by omega) hplen1 hsum1' (by omega)
            (hsm1 7 (by decide))
        case pos =>
          rw [if_pos hl0] at heq
          by_cases hl1 : lcm1 = true
          case neg =>
            rw [if_neg hl1] at heq
            simp only [Prod.mk.injEq] at heq
            obtain ⟨-, h2⟩ := heq
            subst h2
            exact remainderFinish_sum st1 0 t1 (by omega) hplen1 hsum1' (by omega)
              (hsm1 3 (by decide))
          case pos =>
            rw [if_pos hl1] at heq
            rw [commit_mono arb secret harb hlen 7 (by omega) st1] at heq
            dsimp only at heq
            set infoA := ({ st1 with
              guess := monoTrans 7
              error := 0
              round := (st1.round + 1) % 256
              processed := st1.processed ++ [(monoTrans 7, secret.count 7)] } : gameinfo_t)
              with hA
            have hkp7 : getPoss infoA 7 < 32 := hsm1 7 (by decide)
            have hplenA : infoA.possible.length = 8 := hplen1
            have hsA : sumHigh infoA.possible = t1 := hsum1'
            have hc7 : secret.count 7 ≤ 5 := hlen ▸ List.count_le_length 7 secret
            obtain ⟨hB1, hB2, hB3⟩ := stepState_props infoA 1 7 (secret.count 7)
              hplenA (by omega) hkp7 hc7
            have htt : (t1 + secret.count 7) % 256 = t1 + secret.count 7 :=
              Nat.mod_eq_of_lt (by omega)
            by_cases hr7 : (if secret.count 7 = 5 then (st1.round + 1) % 256 else 0) ≠ 0
            · rw [if_pos hr7] at heq
              simp only [Prod.mk.injEq] at heq
              exact absurd heq.1 hr7
            · rw [if_neg hr7] at heq
              simp only [Prod.mk.injEq] at heq
              obtain ⟨-, h2⟩ := heq
              subst h2
              refine remainderFinish_sum _ 0 _ (by omega) hB1 ?_ ?_ ?_
              · exact hB2.trans (by rw [hsA, htt])
              · omega
              · exact lt_of_eq_of_lt (hB3 3 (by omega)) (hsm1 3 (by decide))

/-- Witness for C2: the all-7 secret, a consistent arbiter, and the
all-free entry state; analyse_colors returns 0 and the stored counts
sum to 5. -/
theorem claim_C2_color_sum_witness :
    sumHigh (analyse_colors (fun _ g => if g = monoTrans 7 then 5 else 0)
      initial_info).2.possible = 5 :=
  claim_C2_color_sum (fun _ g => if g = monoTrans 7 then 5 else 0) [7, 7, 7, 7, 7]
    (by decide) (by decide) (fun r k hk => by interval_cases k <;> rfl)
    initial_info (by decide) (by decide)
    (analyse_colors (fun _ g => if g = monoTrans 7 then 5 else 0) initial_info).2 rfl


/-- The response byte the arbiter returns to the i-th guess of a run of
commit_guess calls that starts with round counter round0: commit_guess
increments the counter (uint8_t) before sending, so entry i is read in
round (round0 + 1 + i) % 256. -/
def respAt (arb : Nat → Nat → Nat) (round0 g i : Nat) : Nat :=
  arb ((round0 + 1 + i) % 256) g % 256

/-- Bookkeeping specification of a run of commit_guess calls from st to
st' with result ret: the processed list grows by exactly one tail entry
per submitted guess; the round counter counts the guesses (mod 256);
every entry records the RED bits of its round's response; an entry whose
response carries error bits (bits 6-7) is the last entry of the run, and
ret is its error code with the error flag or-ed in. -/
def RunSpec (arb : Nat → Nat → Nat) (st st' : gameinfo_t) (ret : Nat) : Prop :=
  ∃ L : List (Nat × Nat),
    st'.processed = st.processed ++ L ∧
    st'.round = (st.round + L.length) % 256 ∧
    (∀ i, i < L.length →
      (L.getD i (0, 0)).2 = RED (respAt arb st.round (L.getD i (0, 0)).1 i)) ∧
    (∀ i, i < L.length →
      RESPONSE_ERROR (respAt arb st.round (L.getD i (0, 0)).1 i) > 0 →
      i + 1 = L.length ∧
      ret = RETURN_ERROR (RESPONSE_ERROR (respAt arb st.round (L.getD i (0, 0)).1 i)))

theorem RunSpec_refl (arb : Nat → Nat → Nat) (st : gameinfo_t) (ret : Nat)
    (hround : st.round < 256) : RunSpec arb st st ret :=
  ⟨[], by simp, by simp [Nat.mod_eq_of_lt hround], by simp, by simp⟩

theorem RunSpec_round_lt (arb : Nat → Nat → Nat) (st st' : gameinfo_t) (ret : Nat)
    (h : RunSpec arb st st' ret) : st'.round < 256 := by
  obtain ⟨L, -, h2, -, -⟩ := h
  rw [h2]
  omega

theorem RunSpec_of_zero (arb : Nat → Nat → Nat) (st st' : gameinfo_t) (ret : Nat)
    (h : RunSpec arb st st' 0) : RunSpec arb st st' ret := by
  obtain ⟨L, h1, h2, h3, h4⟩ := h
  exact ⟨L, h1, h2, h3, fun i hi herr =>
    absurd (h4 i hi herr).2.symm (or_pos_ne_zero _ 128 (by omega))⟩

theorem RunSpec_frame_left (arb : Nat → Nat → Nat) (st st₁ st' : gameinfo_t) (ret : Nat)
    (hp : st₁.processed = st.processed) (hr : st₁.round = st.round)
    (h : RunSpec arb st₁ st' ret) : RunSpec arb st st' ret := by
  obtain ⟨L, h1, h2, h3, h4⟩ := h
  exact ⟨L, by rw [h1, hp], by rw [h2, hr], by rw [← hr]; exact h3, by rw [← hr]; exact h4⟩

theorem RunSpec_frame_right (arb : Nat → Nat → Nat) (st st' st₂ : gameinfo_t) (ret : Nat)
    (hp : st₂.processed = st'.processed) (hr : st₂.round = st'.round)
    (h : RunSpec arb st st' ret) : RunSpec arb st st₂ ret := by
  obtain ⟨L, h1, h2, h3, h4⟩ := h
  exact ⟨L, by rw [hp, h1], by rw [hr, h2], h3, h4⟩

theorem getD_append_lt : ∀ (l₁ l₂ : List (Nat × Nat)) (i : Nat), i < l₁.length →
    (l₁ ++ l₂).getD i (0, 0) = l₁.getD i (0, 0)
  | [], _, _, h => absurd h (by simp)
  | _ :: _, _, 0, _ => rfl
  | _ :: xs, l₂, i + 1, h => getD_append_lt xs l₂ i (by simpa using h)

theorem getD_append_ge : ∀ (l₁ l₂ : List (Nat × Nat)) (i : Nat), l₁.length ≤ i →
    (l₁ ++ l₂).getD i (0, 0) = l₂.getD (i - l₁.length) (0, 0)
  | [], _, _, _ => rfl
  | x :: xs, l₂, 0, h => absurd h (by simp)
  | x :: xs, l₂, i + 1, h => by
    show (xs ++ l₂).getD i (0, 0) = l₂.getD (i + 1 - (xs.length + 1)) (0, 0)
    rw [getD_append_ge xs l₂ i (by simpa using h)]
    congr 1
    omega

theorem RunSpec_trans (arb : Nat → Nat → Nat) (st st₁ st₂ : gameinfo_t) (ret : Nat)
    (h1 : RunSpec arb st st₁ 0) (h2 : RunSpec arb st₁ st₂ ret) :
    RunSpec arb st st₂ ret := by
  obtain ⟨L₁, hp1, hr1, hred1, herr1⟩ := h1
  obtain ⟨L₂, hp2, hr2, hred2, herr2⟩ := h2
  have hresp : ∀ g j, respAt arb st₁.round g j = respAt arb st.round g (L₁.length + j) := by
    intro g j
    show arb ((st₁.round + 1 + j) % 256) g % 256 =
      arb ((st.round + 1 + (L₁.length + j)) % 256) g % 256
    rw [hr1]
    have he : ((st.round + L₁.length) % 256 + 1 + j) % 256 =
        (st.round + 1 + (L₁.length + j)) % 256 := by omega
    rw [he]
  refine ⟨L₁ ++ L₂, by rw [hp2, hp1, List.append_assoc], ?_, ?_, ?_⟩
  · rw [hr2, hr1, List.length_append]
    omega
  · intro i hi
    rw [List.length_append] at hi
    by_cases hlt : i < L₁.length
    · rw [getD_append_lt L₁ L₂ i hlt]
      exact hred1 i hlt
    · have hj : i - L₁.length < L₂.length := by omega
      rw [getD_append_ge L₁ L₂ i (by omega)]
      have h := hred2 (i - L₁.length) hj
      rw [hresp, show L₁.length + (i - L₁.length) = i from by omega] at h
      exact h
  · intro i hi herr
    rw [List.length_append] at hi ⊢
    by_cases hlt : i < L₁.length
    · rw [getD_append_lt L₁ L₂ i hlt] at herr
      exact absurd (herr1 i hlt herr).2.symm (or_pos_ne_zero _ 128 (by omega))
    · have hj : i - L₁.length < L₂.length := by omega
      rw [getD_append_ge L₁ L₂ i (by omega)] at herr ⊢
      have h := herr2 (i - L₁.length) hj
      rw [hresp, show L₁.length + (i - L₁.length) = i from by omega] at h
      obtain ⟨ha, hb⟩ := h herr
      exact ⟨by omega, hb⟩

/-- commit_guess written without lets: transmitted guess, response read,
result record, updated state, and the return value's error/win analysis. -/
theorem commit_guess_unfold (arb : Nat → Nat → Nat) (p : Option (List Nat))
    (st : gameinfo_t) :
    commit_guess arb p st =
      ((if RESPONSE_ERROR (arb ((st.round + 1) % 256)
            (generate_request (match p with
              | some cols => (init_request cols).getD 0
              | none => st.guess)).2 % 256) > 0 then
          RETURN_ERROR (RESPONSE_ERROR (arb ((st.round + 1) % 256)
            (generate_request (match p with
              | some cols => (init_request cols).getD 0
              | none => st.guess)).2 % 256))
        else if RED (arb ((st.round + 1) % 256)
            (generate_request (match p with
              | some cols => (init_request cols).getD 0
              | none => st.guess)).2 % 256) = SLOTS then (st.round + 1) % 256 else 0),
       ⟨RED (arb ((st.round + 1) % 256)
            (generate_request (match p with
              | some cols => (init_request cols).getD 0
              | none => st.guess)).2 % 256),
        WHITE (arb ((st.round + 1) % 256)
            (generate_request (match p with
              | some cols => (init_request cols).getD 0
              | none => st.guess)).2 % 256),
        TOTAL (arb ((st.round + 1) % 256)
            (generate_request (match p with
              | some cols => (init_request cols).getD 0
              | none => st.guess)).2 % 256), 0⟩,
       { st with
         round := (st.round + 1) % 256,
         guess := (generate_request (match p with
              | some cols => (init_request cols).getD 0
              | none => st.guess)).2,
         error := RESPONSE_ERROR (arb ((st.round + 1) % 256)
            (generate_request (match p with
              | some cols => (init_request cols).getD 0
              | none => st.guess)).2 % 256),
         processed := st.processed ++
           [((generate_request (match p with
              | some cols => (init_request cols).getD 0
              | none => st.guess)).2,
             RED (arb ((st.round + 1) % 256)
              (generate_request (match p with
                | some cols => (init_request cols).getD 0
                | none => st.guess)).2 % 256))] }) := rfl

theorem RunSpec_commit_step (arb : Nat → Nat → Nat) (p : Option (List Nat))
    (st : gameinfo_t) :
    RunSpec arb st (commit_guess arb p st).2.2 (commit_guess arb p st).1 ∧
    (commit_guess arb p st).2.2.round = (st.round + 1) % 256 ∧
    (commit_guess arb p st).2.2.processed =
      st.processed ++ [((commit_guess arb p st).2.2.guess,
        RED (respAt arb st.round (commit_guess arb p st).2.2.guess 0))] := by
  rw [commit_guess_unfold]
  dsimp only
  set gT := (generate_request (match p with
    | some cols => (init_request cols).getD 0
    | none => st.guess)).2 with hgT
  refine ⟨⟨[(gT, RED (arb ((st.round + 1) % 256) gT % 256))], rfl, rfl, ?_, ?_⟩, rfl, rfl⟩
  · intro i hi
    have h0 : i = 0 := by simpa using hi
    subst h0
    rfl
  · intro i hi herr
    have h0 : i = 0 := by simpa using hi
    subst h0
    refine ⟨rfl, ?_⟩
    rw [if_pos (show RESPONSE_ERROR (arb ((st.round + 1) % 256) gT % 256) > 0 from herr)]
    rfl

theorem setResultRWT_fields (info : gameinfo_t) (i : Nat) (res : result_t) :
    (setResultRWT info i res).processed = info.processed ∧
    (setResultRWT info i res).round = info.round := by
  by_cases h : i = 0 <;> simp [setResultRWT, h]

theorem setResultVals_fields (info : gameinfo_t) (i r w t : Nat) :
    (setResultVals info i r w t).processed = info.processed ∧
    (setResultVals info i r w t).round = info.round := by
  by_cases h : i = 0 <;> simp [setResultVals, h]

theorem stepState_fields (st : gameinfo_t) (i k m : Nat) :
    (stepState st i k m).processed = st.processed ∧
    (stepState st i k m).round = st.round := by
  by_cases h : i = 0 <;> simp [stepState, setPoss, addRealHits, h]

theorem remainderFinish_fields (info : gameinfo_t) (i total : Nat) :
    (remainderFinish info i total).processed = info.processed ∧
    (remainderFinish info i total).round = info.round := by
  unfold remainderFinish
  by_cases h0 : 5 - total = 0 <;> by_cases h : i = 0 <;>
    simp [addRealHits, setPoss, h0, h]

theorem possiblePart_fields (info : gameinfo_t) (i : Nat) :
    (possiblePart info i).processed = info.processed ∧
    (possiblePart info i).round = info.round := by
  unfold possiblePart
  split_ifs <;> simp

theorem analyse_possible_fields (info : gameinfo_t) :
    (analyse_possible info).processed = info.processed ∧
    (analyse_possible info).round = info.round := by
  unfold analyse_possible
  obtain ⟨h1, h2⟩ := possiblePart_fields info 0
  obtain ⟨h3, h4⟩ := possiblePart_fields (possiblePart info 0) 1
  exact ⟨(possiblePart_fields (possiblePart info 0) 1).1.trans h1,
    (possiblePart_fields (possiblePart info 0) 1).2.trans h2⟩

/-- The partition-probing loop satisfies the run specification: its
processed/round bookkeeping is exact and a response error ends the loop
immediately with the flagged error as the result. -/
theorem partitionsLoop_run (arb : Nat → Nat → Nat) :
    ∀ fuel i skip st, st.round < 256 →
      RunSpec arb st (partitionsLoop arb fuel i skip st).2
        (partitionsLoop arb fuel i skip st).1 := by
  intro fuel
  induction fuel with
  | zero => exact fun i skip st hround => RunSpec_refl arb st 0 hround
  | succ fuel ih =>
    intro i skip st hround
    have hbody : partitionsLoop arb (fuel + 1) i skip st =
        (if i < 2 ∧ skip = false then
          (let (ret, res, info₁) := commit_guess arb (some (partitions i)) st
           let info₂ := setResultRWT info₁ i res
           if ret ≠ 0 then (ret, info₂)
           else if (getResult info₂ i).total = SLOTS then
             partitionsLoop arb fuel (i + 1) true
               (clearPossible (setResultVals info₂ ((i + 1) % 2) 0 0 0) (((i + 1) % 2) * 4) 4)
           else if (getResult info₂ i).total = 0 then
             partitionsLoop arb fuel (i + 1) true
               (clearPossible (setResultVals info₂ ((i + 1) % 2) 1 0 5) (i * 4) 4)
           else partitionsLoop arb fuel (i + 1) skip info₂)
        else (0, st)) := rfl
    rw [hbody]
    by_cases hcond : i < 2 ∧ skip = false
    case neg =>
      rw [if_neg hcond]
      exact RunSpec_refl arb st 0 hround
    case pos =>
    rw [if_pos hcond]
    rcases hc : commit_guess arb (some (partitions i)) st with ⟨ret, res, info₁⟩
    have hstep := RunSpec_commit_step arb (some (partitions i)) st
    rw [hc] at hstep
    dsimp only at hstep ⊢
    obtain ⟨hrs, hrd, hpr⟩ := hstep
    have hround₁ : info₁.round < 256 := by rw [hrd]; omega
    obtain ⟨hsp, hsr⟩ := setResultRWT_fields info₁ i res
    by_cases hret : ret ≠ 0
    case pos =>
      rw [if_pos hret]
      exact RunSpec_frame_right arb st info₁ (setResultRWT info₁ i res) ret hsp hsr hrs
    case neg =>
    rw [if_neg hret]
    have hr0 : ret = 0 := by omega
    subst hr0
    have hbase : RunSpec arb st (setResultRWT info₁ i res) 0 :=
      RunSpec_frame_right arb st info₁ (setResultRWT info₁ i res) 0 hsp hsr hrs
    have hround₂ : (setResultRWT info₁ i res).round < 256 := by rw [hsr]; exact hround₁
    by_cases h5 : (getResult (setResultRWT info₁ i res) i).total = SLOTS
    case pos =>
      rw [if_pos h5]
      set j := (i + 1) % 2 with hj
      obtain ⟨hvp, hvr⟩ := setResultVals_fields (setResultRWT info₁ i res) j 0 0 0
      obtain ⟨hcl, hcr, hcp, -⟩ :=
        clearPossible_spec 4 (setResultVals (setResultRWT info₁ i res) j 0 0 0) (j * 4)
      have hbase₂ : RunSpec arb st
          (clearPossible (setResultVals (setResultRWT info₁ i res) j 0 0 0) (j * 4) 4) 0 :=
        RunSpec_frame_right arb st (setResultRWT info₁ i res) _ 0
          (hcp.trans hvp) (hcr.trans hvr) hbase
      exact RunSpec_trans arb st _ _ _ hbase₂
        (ih (i + 1) true _ (by rw [hcr, hvr]; exact hround₂))
    case neg =>
    rw [if_neg h5]
    by_cases h0 : (getResult (setResultRWT info₁ i res) i).total = 0
    case pos =>
      rw [if_pos h0]
      set j := (i + 1) % 2 with hj
      obtain ⟨hvp, hvr⟩ := setResultVals_fields (setResultRWT info₁ i res) j 1 0 5
      obtain ⟨hcl, hcr, hcp, -⟩ :=
        clearPossible_spec 4 (setResultVals (setResultRWT info₁ i res) j 1 0 5) (i * 4)
      have hbase₂ : RunSpec arb st
          (clearPossible (setResultVals (setResultRWT info₁ i res) j 1 0 5) (i * 4) 4) 0 :=
        RunSpec_frame_right arb st (setResultRWT info₁ i res) _ 0
          (hcp.trans hvp) (hcr.trans hvr) hbase
      exact RunSpec_trans arb st _ _ _ hbase₂
        (ih (i + 1) true _ (by rw [hcr, hvr]; exact hround₂))
    case neg =>
      rw [if_neg h0]
      exact RunSpec_trans arb st _ _ _ hbase (ih (i + 1) skip _ hround₂)

/-- The color-probing loop satisfies the run specification (for every
arbiter). -/
theorem colorProbe_run (arb : Nat → Nat → Nat) (i : Nat) :
    ∀ cnt k found total st, st.round < 256 →
      (∀ r fnd t st', colorProbe arb i cnt k found total st = (some r, fnd, t, st') →
         RunSpec arb st st' r) ∧
      (∀ fnd t st', colorProbe arb i cnt k found total st = (none, fnd, t, st') →
         RunSpec arb st st' 0) := by
  intro cnt
  induction cnt with
  | zero =>
    intro k found total st hround
    constructor
    · intro r fnd t st' heq
      simp [colorProbe] at heq
    · intro fnd t st' heq
      simp only [colorProbe, Prod.mk.injEq] at heq
      obtain ⟨-, -, -, h4⟩ := heq
      subst h4
      exact RunSpec_refl arb st 0 hround
  | succ cnt ih =>
    intro k found total st hround
    have hbody : colorProbe arb i (cnt + 1) k found total st =
        (let (ret, res, info₁) := commit_guess arb (some [k, k, k, k, k]) st
         if ret ≠ 0 then (some ret, found, total, info₁)
         else if res.total = 0 then
           colorProbe arb i cnt (k + 1) found total (setPoss info₁ k 0)
         else
           let total' := (total + res.total) % 256
           let info₃ := stepState info₁ i k res.total
           let found' := (found + 1) % 256
           if found' = (getResult info₃ i).total ∨ total' = SLOTS ∨
              (i = 0 ∧ total' + (getResult info₃ 1).total = SLOTS) then
             (none, found', total', clearPossible info₃ (k + 1) (cnt + 1))
           else colorProbe arb i cnt (k + 1) found' total' info₃) := rfl
    rw [hbody]
    rcases hc : commit_guess arb (some [k, k, k, k, k]) st with ⟨ret, res, info₁⟩
    have hstep := RunSpec_commit_step arb (some [k, k, k, k, k]) st
    rw [hc] at hstep
    dsimp only at hstep ⊢
    obtain ⟨hrs, hrd, -⟩ := hstep
    have hround₁ : info₁.round < 256 := by rw [hrd]; omega
    by_cases hret : ret ≠ 0
    case pos =>
      rw [if_pos hret]
      constructor
      · intro r fnd t st' heq
        simp only [Prod.mk.injEq, Option.some.injEq] at heq
        obtain ⟨h1, -, -, h4⟩ := heq
        subst h1
        subst h4
        exact hrs
      · intro fnd t st' heq
        simp at heq
    case neg =>
    rw [if_neg hret]
    have hr0 : ret = 0 := by omega
    subst hr0
    by_cases hzero : res.total = 0
    case pos =>
      rw [if_pos hzero]
      obtain ⟨hR, hP, -, -, -⟩ := setPoss_fields info₁ k 0
      have hround₂ : (setPoss info₁ k 0).round < 256 := by rw [hR]; exact hround₁
      have hbase : RunSpec arb st (setPoss info₁ k 0) 0 :=
        RunSpec_frame_right arb st info₁ _ 0 hP hR hrs
      obtain ⟨ihs, ihn⟩ := ih (k + 1) found total (setPoss info₁ k 0) hround₂
      constructor
      · intro r fnd t st' heq
        exact RunSpec_trans arb st _ st' r hbase (ihs r fnd t st' heq)
      · intro fnd t st' heq
        exact RunSpec_trans arb st _ st' 0 hbase (ihn fnd t st' heq)
    case neg =>
      rw [if_neg hzero]
      obtain ⟨hsP, hsR⟩ := stepState_fields info₁ i k res.total
      have hround₃ : (stepState info₁ i k res.total).round < 256 := by
        rw [hsR]
        exact hround₁
      have hbase : RunSpec arb st (stepState info₁ i k res.total) 0 :=
        RunSpec_frame_right arb st info₁ _ 0 hsP hsR hrs
      by_cases hbrk : (found + 1) % 256 = (getResult (stepState info₁ i k res.total) i).total ∨
          (total + res.total) % 256 = SLOTS ∨
          (i = 0 ∧ (total + res.total) % 256 +
            (getResult (stepState info₁ i k res.total) 1).total = SLOTS)
      case pos =>
        rw [if_pos hbrk]
        obtain ⟨-, hcr, hcp, -⟩ :=
          clearPossible_spec (cnt + 1) (stepState info₁ i k res.total) (k + 1)
        constructor
        · intro r fnd t st' heq
          simp at heq
        · intro fnd t st' heq
          simp only [Prod.mk.injEq] at heq
          obtain ⟨-, -, -, h4⟩ := heq
          subst h4
          exact RunSpec_frame_right arb st _ _ 0 hcp hcr hbase
      case neg =>
        rw [if_neg hbrk]
        obtain ⟨ihs, ihn⟩ := ih (k + 1) ((found + 1) % 256) ((total + res.total) % 256)
          (stepState info₁ i k res.total) hround₃
        constructor
        · intro r fnd t st' heq
          exact RunSpec_trans arb st _ st' r hbase (ihs r fnd t st' heq)
        · intro fnd t st' heq
          exact RunSpec_trans arb st _ st' 0 hbase (ihn fnd t st' heq)

theorem colorPartition_run (arb : Nat → Nat → Nat) (i total : Nat) (st : gameinfo_t)
    (hround : st.round < 256) :
    (∀ r t lcm st', colorPartition arb i total st = (some r, t, lcm, st') →
       RunSpec arb st st' r) ∧
    (∀ t lcm st', colorPartition arb i total st = (none, t, lcm, st') →
       RunSpec arb st st' 0) := by
  obtain ⟨cps, cpn⟩ := colorProbe_run arb i 3 (i * 4) 0 total st hround
  by_cases hcond : (getResult st i).total > 0
  · rcases hcp : colorProbe arb i 3 (i * 4) 0 total st with ⟨o, found, t', st₁⟩
    cases o with
    | some ret =>
      have hfold : colorPartition arb i total st = (some ret, total, false, st₁) := by
        simp only [colorPartition, if_pos hcond, hcp]
      constructor
      · intro r t lcm st' heq
        rw [hfold] at heq
        simp only [Prod.mk.injEq, Option.some.injEq] at heq
        obtain ⟨h1, -, -, h4⟩ := heq
        subst h1
        subst h4
        exact cps ret found t' st₁ hcp
      · intro t lcm st' heq
        rw [hfold] at heq
        simp at heq
    | none =>
      have hfold : colorPartition arb i total st =
          (none, t', decide (found < (getResult st₁ i).total), st₁) := by
        simp only [colorPartition, if_pos hcond, hcp]
      constructor
      · intro r t lcm st' heq
        rw [hfold] at heq
        simp at heq
      · intro t lcm st' heq
        rw [hfold] at heq
        simp only [Prod.mk.injEq] at heq
        obtain ⟨-, -, -, h4⟩ := heq
        subst h4
        exact cpn found t' st₁ hcp
  · have hfold : colorPartition arb i total st = (none, total, false, st) := by
      simp only [colorPartition, if_neg hcond]
    constructor
    · intro r t lcm st' heq
      rw [hfold] at heq
      simp at heq
    · intro t lcm st' heq
      rw [hfold] at heq
      simp only [Prod.mk.injEq] at heq
      obtain ⟨-, -, -, h4⟩ := heq
      subst h4
      exact RunSpec_refl arb st 0 hround

/-- analyse_colors satisfies the run specification. -/
theorem analyse_colors_run (arb : Nat → Nat → Nat) (st : gameinfo_t)
    (hround : st.round < 256) :
    RunSpec arb st (analyse_colors arb st).2 (analyse_colors arb st).1 := by
  obtain ⟨cp0s, cp0n⟩ := colorPartition_run arb 0 0 st hround
  rcases hc0 : colorPartition arb 0 0 st with ⟨o0, t0, lcm0, st0⟩
  cases o0 with
  | some r0 =>
    simp only [analyse_colors, hc0]
    exact cp0s r0 t0 lcm0 st0 hc0
  | none =>
    have h0 : RunSpec arb st st0 0 := cp0n t0 lcm0 st0 hc0
    have hround0 : st0.round < 256 := RunSpec_round_lt arb st st0 0 h0
    obtain ⟨cp1s, cp1n⟩ := colorPartition_run arb 1 t0 st0 hround0
    rcases hc1 : colorPartition arb 1 t0 st0 with ⟨o1, t1, lcm1, st1⟩
    cases o1 with
    | some r1 =>
      simp only [analyse_colors, hc0, hc1]
      exact RunSpec_trans arb st st0 st1 r1 h0 (cp1s r1 t1 lcm1 st1 hc1)
    | none =>
      have h1 : RunSpec arb st st1 0 :=
        RunSpec_trans arb st st0 st1 0 h0 (cp1n t1 lcm1 st1 hc1)
      have hround1 : st1.round < 256 := RunSpec_round_lt arb st st1 0 h1
      simp only [analyse_colors, hc0, hc1]
      by_cases ht1 : t1 < SLOTS
      case neg =>
        rw [if_neg ht1]
        dsimp only
        obtain ⟨hR1, hP1, -, -, -⟩ := setPoss_fields st1 3 0
        obtain ⟨hR2, hP2, -, -, -⟩ := setPoss_fields (setPoss st1 3 0) 7 0
        exact RunSpec_frame_right arb st st1 _ 0 (hP2.trans hP1) (hR2.trans hR1) h1
      case pos =>
        rw [if_pos ht1]
        by_cases hl0 : lcm0 = true
        case neg =>
          rw [if_neg hl0]
          dsimp only
          obtain ⟨hFp, hFr⟩ := remainderFinish_fields st1 1 t1
          exact RunSpec_frame_right arb st st1 _ 0 hFp hFr h1
        case pos =>
          rw [if_pos hl0]
          by_cases hl1 : lcm1 = true
          case neg =>
            rw [if_neg hl1]
            dsimp only
            obtain ⟨hFp, hFr⟩ := remainderFinish_fields st1 0 t1
            exact RunSpec_frame_right arb st st1 _ 0 hFp hFr h1
          case pos =>
            rw [if_pos hl1]
            rcases hc7 : commit_guess arb (some [7, 7, 7, 7, 7]) st1 with ⟨ret, res, infoA⟩
            have hstep := RunSpec_commit_step arb (some [7, 7, 7, 7, 7]) st1
            rw [hc7] at hstep
            dsimp only at hstep ⊢
            obtain ⟨hrs, hrd, -⟩ := hstep
            by_cases hret : ret ≠ 0
            case pos =>
              rw [if_pos hret]
              dsimp only
              exact RunSpec_trans arb st st1 infoA ret h1 hrs
            case neg =>
              rw [if_neg hret]
              dsimp only
              have hr0 : ret = 0 := by omega
              subst hr0
              obtain ⟨hsP, hsR⟩ := stepState_fields infoA 1 7 res.total
              obtain ⟨hFp, hFr⟩ := remainderFinish_fields
                (stepState infoA 1 7 res.total) 0 ((t1 + res.total) % 256)
              exact RunSpec_trans arb st st1 _ 0 h1
                (RunSpec_frame_right arb st1 infoA _ 0 (hFp.trans hsP) (hFr.trans hsR) hrs)

/-- The candidate-submission loop satisfies the run specification
whenever it returns a result. -/
theorem combLoop_run (arb : Nat → Nat → Nat) :
    ∀ fuel idx st, st.round < 256 →
      ∀ r st', combLoop arb fuel idx st = some (r, st') → RunSpec arb st st' r := by
  intro fuel
  induction fuel with
  | zero =>
    intro idx st hround r st' heq
    simp [combLoop] at heq
  | succ fuel ih =>
    intro idx st hround r st' heq
    have hbody : combLoop arb (fuel + 1) idx st =
        (match st.first_perm.get? idx with
         | none => none
         | some comb =>
           let (ret, _res, info₁) := commit_guess arb none { st with guess := comb }
           if ret ≠ 0 then some (ret, info₁)
           else
             let info₂ := { info₁ with first_perm := info₁.first_perm.eraseIdx idx }
             match find_best_perm info₂.first_perm info₂.processed with
             | none => none
             | some idx' => combLoop arb fuel idx' info₂) := rfl
    rw [hbody] at heq
    rcases hg : st.first_perm.get? idx with - | comb
    · rw [hg] at heq
      simp at heq
    · rw [hg] at heq
      dsimp only at heq
      rcases hc : commit_guess arb none { st with guess := comb } with ⟨ret, res, info₁⟩
      have hstep := RunSpec_commit_step arb none { st with guess := comb }
      rw [hc] at hstep heq
      dsimp only at hstep heq
      obtain ⟨hrs, hrd, -⟩ := hstep
      have hrs' : RunSpec arb st info₁ ret :=
        RunSpec_frame_left arb st { st with guess := comb } info₁ ret rfl rfl hrs
      have hround₁ : info₁.round < 256 := by
        rw [hrd]
        omega
      by_cases hret : ret ≠ 0
      · rw [if_pos hret] at heq
        simp only [Option.some.injEq, Prod.mk.injEq] at heq
        obtain ⟨h1, h2⟩ := heq
        subst h1
        subst h2
        exact hrs'
      · rw [if_neg hret] at heq
        have hr0 : ret = 0 := by omega
        subst hr0
        rcases hf : find_best_perm (info₁.first_perm.eraseIdx idx) info₁.processed with - | idx'
        · rw [hf] at heq
          simp at heq
        · rw [hf] at heq
          dsimp only at heq
          have hre : ({ info₁ with
              first_perm := info₁.first_perm.eraseIdx idx } : gameinfo_t).round < 256 :=
            hround₁
          have hrec := ih idx' { info₁ with first_perm := info₁.first_perm.eraseIdx idx }
            hre r st' heq
          exact RunSpec_trans arb st _ st' r
            (RunSpec_frame_right arb st info₁ _ 0 rfl rfl hrs') hrec

/-- analyse_combinations satisfies the run specification whenever it
returns a result. -/
theorem analyse_combinations_run (arb : Nat → Nat → Nat) (st : gameinfo_t)
    (hround : st.round < 256) :
    ∀ r st', analyse_combinations arb st = some (r, st') → RunSpec arb st st' r := by
  intro r st' heq
  have hent : ({ st with
      guess := 0
      first_perm := processChain 0 0 st.first_perm
        (build_combination_list st.possible) } : gameinfo_t).round < 256 := hround
  have heq' : combLoop arb
      ((processChain 0 0 st.first_perm (build_combination_list st.possible)).length + 1) 0
      { st with
        guess := 0
        first_perm := processChain 0 0 st.first_perm (build_combination_list st.possible) } =
      some (r, st') := heq
  exact RunSpec_frame_left arb st _ st' r rfl rfl
    (combLoop_run arb _ 0 _ hent r st' heq')

/-- start_game satisfies the run specification from the initial state
whenever it returns a result. -/
theorem start_game_run (arb : Nat → Nat → Nat) :
    ∀ r st', start_game arb = some (r, st') → RunSpec arb initial_info st' r := by
  intro r st' heq
  have hri : initial_info.round < 256 := by
    show (0 : Nat) < 256
    omega
  have h1run := partitionsLoop_run arb 3 0 false initial_info hri
  have hpa : partitionsLoop arb 3 0 false initial_info = analyse_partitions arb initial_info :=
    rfl
  rw [hpa] at h1run
  rcases h1 : analyse_partitions arb initial_info with ⟨r1, info1⟩
  rw [h1] at h1run
  dsimp only at h1run
  have hsg : start_game arb =
      (let (r1, info1) := analyse_partitions arb initial_info
       if r1 ≠ 0 then some (r1, info1)
       else
         let (r2, info2) := analyse_colors arb info1
         if r2 ≠ 0 then some (r2, info2)
         else
           let info3 := analyse_possible info2
           match analyse_combinations arb info3 with
           | none => none
           | some (r4, info4) =>
             if r4 ≠ 0 then some (r4, info4) else some (RETURN_ERROR 0, info4)) := rfl
  rw [hsg] at heq
  rw [h1] at heq
  dsimp only at heq
  by_cases hr1 : r1 ≠ 0
  · rw [if_pos hr1] at heq
    simp only [Option.some.injEq, Prod.mk.injEq] at heq
    obtain ⟨ha, hb⟩ := heq
    subst ha
    subst hb
    exact h1run
  · rw [if_neg hr1] at heq
    have h10 : r1 = 0 := by omega
    subst h10
    have hround1 : info1.round < 256 := RunSpec_round_lt arb _ _ _ h1run
    have h2run := analyse_colors_run arb info1 hround1
    rcases h2 : analyse_colors arb info1 with ⟨r2, info2⟩
    rw [h2] at h2run heq
    dsimp only at h2run heq
    have h12 : RunSpec arb initial_info info2 r2 := RunSpec_trans arb _ _ _ _ h1run h2run
    by_cases hr2 : r2 ≠ 0
    · rw [if_pos hr2] at heq
      simp only [Option.some.injEq, Prod.mk.injEq] at heq
      obtain ⟨ha, hb⟩ := heq
      subst ha
      subst hb
      exact h12
    · rw [if_neg hr2] at heq
      have h20 : r2 = 0 := by omega
      subst h20
      have hround2 : info2.round < 256 := RunSpec_round_lt arb _ _ _ h12
      obtain ⟨hap, har⟩ := analyse_possible_fields info2
      have hround3 : (analyse_possible info2).round < 256 := by
        rw [har]
        exact hround2
      rcases h3 : analyse_combinations arb (analyse_possible info2) with - | rp
      · rw [h3] at heq
        simp at heq
      · rcases rp with ⟨r4, info4⟩
        rw [h3] at heq
        dsimp only at heq
        have h4run := analyse_combinations_run arb (analyse_possible info2) hround3 r4 info4 h3
        have h4run' : RunSpec arb info2 info4 r4 :=
          RunSpec_frame_left arb info2 (analyse_possible info2) info4 r4 hap har h4run
        have hall : RunSpec arb initial_info info4 r4 :=
          RunSpec_trans arb _ _ _ _ h12 h4run'
        by_cases hr4 : r4 ≠ 0
        · rw [if_pos hr4] at heq
          simp only [Option.some.injEq, Prod.mk.injEq] at heq
          obtain ⟨ha, hb⟩ := heq
          subst ha
          subst hb
          exact hall
        · rw [if_neg hr4] at heq
          simp only [Option.some.injEq, Prod.mk.injEq] at heq
          obtain ⟨ha, hb⟩ := heq
          subst ha
          subst hb
          have h40 : r4 = 0 := by omega
          rw [h40] at hall
          exact RunSpec_of_zero arb _ _ _ hall


theorem is_error_return (e : Nat) : IS_ERROR (RETURN_ERROR e) = true := by
  have h7 : ((e ||| 128) &&& 128).testBit 7 = true := by
    rw [Nat.testBit_and, Nat.testBit_or]
    simp [show Nat.testBit 128 7 = true from by decide]
  have hne : (e ||| 128) &&& 128 ≠ 0 := by
    intro h0
    rw [h0] at h7
    simp at h7
  show decide ((e ||| 128) &&& 128 ≠ 0) = true
  exact decide_eq_true hne

/-- A partition probe whose commit result is nonzero ends
analyse_partitions' loop at once with that result. -/
theorem partitionsLoop_stop (arb : Nat → Nat → Nat) (fuel i : Nat) (st : gameinfo_t)
    (hi : i < 2) (ret : Nat) (res : result_t) (info₁ : gameinfo_t)
    (hc : commit_guess arb (some (partitions i)) st = (ret, res, info₁))
    (hret : ret ≠ 0) :
    partitionsLoop arb (fuel + 1) i false st = (ret, setResultRWT info₁ i res) := by
  have hbody : partitionsLoop arb (fuel + 1) i false st =
      (if i < 2 ∧ false = false then
        (let (ret, res, info₁) := commit_guess arb (some (partitions i)) st
         let info₂ := setResultRWT info₁ i res
         if ret ≠ 0 then (ret, info₂)
         else if (getResult info₂ i).total = SLOTS then
           partitionsLoop arb fuel (i + 1) true
             (clearPossible (setResultVals info₂ ((i + 1) % 2) 0 0 0) (((i + 1) % 2) * 4) 4)
         else if (getResult info₂ i).total = 0 then
           partitionsLoop arb fuel (i + 1) true
             (clearPossible (setResultVals info₂ ((i + 1) % 2) 1 0 5) (i * 4) 4)
         else partitionsLoop arb fuel (i + 1) false info₂)
      else (0, st)) := rfl
  rw [hbody, if_pos ⟨hi, rfl⟩, hc]
  dsimp only
  rw [if_pos hret]

/-- C9: a response byte carrying error bits (bits 6-7) makes commit_guess
return that error code with the error flag bit or-ed in; the run
specification of every phase (analyse_partitions, analyse_colors,
analyse_combinations) then forces the erroneous guess to be the last one
submitted, with the flagged error propagated as the phase result;
start_game surfaces it as the session outcome; and an error pattern of 1
(parity) on round 1 ends the game as 129 after exactly one guess. -/
theorem claim_C9_error_propagation :
    (∀ (arb : Nat → Nat → Nat) (p : Option (List Nat)) (st : gameinfo_t),
      RESPONSE_ERROR (respAt arb st.round (commit_guess arb p st).2.2.guess 0) > 0 →
      (commit_guess arb p st).1 =
        RETURN_ERROR (RESPONSE_ERROR
          (respAt arb st.round (commit_guess arb p st).2.2.guess 0)) ∧
      IS_ERROR (commit_guess arb p st).1 = true) ∧
    (∀ (arb : Nat → Nat → Nat) (st : gameinfo_t), st.round < 256 →
      RunSpec arb st (analyse_partitions arb st).2 (analyse_partitions arb st).1) ∧
    (∀ (arb : Nat → Nat → Nat) (st : gameinfo_t), st.round < 256 →
      RunSpec arb st (analyse_colors arb st).2 (analyse_colors arb st).1) ∧
    (∀ (arb : Nat → Nat → Nat) (st : gameinfo_t), st.round < 256 →
      ∀ r st', analyse_combinations arb st = some (r, st') → RunSpec arb st st' r) ∧
    (∀ (arb : Nat → Nat → Nat) (r : Nat) (st' : gameinfo_t),
      start_game arb = some (r, st') → RunSpec arb initial_info st' r) ∧
    (∀ arb : Nat → Nat → Nat, RESPONSE_ERROR (arb 1 13376 % 256) = 1 →
      ∃ st', start_game arb = some (129, st') ∧
        st'.processed.length = 1 ∧ st'.round = 1) := by
  refine ⟨?_, ?_, ?_, ?_, ?_, ?_⟩
  · intro arb p st
    rw [commit_guess_unfold]
    dsimp only
    set gT := (generate_request (match p with
      | some cols => (init_request cols).getD 0
      | none => st.guess)).2 with hgT
    intro herr
    have herr' : RESPONSE_ERROR (arb ((st.round + 1) % 256) gT % 256) > 0 := herr
    refine ⟨?_, ?_⟩
    · rw [if_pos herr']
      rfl
    · rw [if_pos herr']
      exact is_error_return _
  · intro arb st hround
    have h := partitionsLoop_run arb 3 0 false st hround
    exact h
  · intro arb st hround
    exact analyse_colors_run arb st hround
  · intro arb st hround
    exact analyse_combinations_run arb st hround
  · intro arb r st' heq
    exact start_game_run arb r st' heq
  · intro arb herr
    rcases hc : commit_guess arb (some (partitions 0)) initial_info with ⟨ret, res, info₁⟩
    have hc' := (commit_part0_initial arb).symm.trans hc
    simp only [Prod.mk.injEq] at hc'
    obtain ⟨h1, h2, h3⟩ := hc'
    have hret : ret = 129 := by
      rw [← h1, herr]
      rw [if_pos (by omega : (1 : Nat) > 0)]
      decide
    have hpr : info₁.processed = [(13376, RED (arb 1 13376 % 256))] := by
      rw [← h3]
    have hrd : info₁.round = 1 := by
      rw [← h3]
    have hloop : partitionsLoop arb 3 0 false initial_info = (ret, setResultRWT info₁ 0 res) :=
      partitionsLoop_stop arb 2 0 initial_info (by omega) ret res info₁ hc
        (by rw [hret]; omega)
    have hsg : start_game arb = some (ret, setResultRWT info₁ 0 res) := by
      have hb : start_game arb =
          (let (r1, info1) := analyse_partitions arb initial_info
           if r1 ≠ 0 then some (r1, info1)
           else
             let (r2, info2) := analyse_colors arb info1
             if r2 ≠ 0 then some (r2, info2)
             else
               let info3 := analyse_possible info2
               match analyse_combinations arb info3 with
               | none => none
               | some (r4, info4) =>
                 if r4 ≠ 0 then some (r4, info4) else some (RETURN_ERROR 0, info4)) := rfl
      rw [hb, show analyse_partitions arb initial_info =
        partitionsLoop arb 3 0 false initial_info from rfl, hloop]
      dsimp only
      rw [if_pos (show ret ≠ 0 from by rw [hret]; omega)]
    rw [hret] at hsg
    obtain ⟨hfp, hfr⟩ := setResultRWT_fields info₁ 0 res
    refine ⟨setResultRWT info₁ 0 res, hsg, ?_, ?_⟩
    · rw [hfp, hpr]
      rfl
    · rw [hfr, hrd]

/-- C10: commit_guess unconditionally advances the round counter by one
(uint8_t wrap) and appends exactly one (transmitted guess, red count)
node at the tail of the processed list — the append happens before the
error and win checks, so it covers winning guesses and guesses whose
response carried an error; consequently every phase and a completed
start_game leave one round-ordered processed entry per submitted guess,
each recording the RED bits of its round's response, with the round
counter equal to the number of entries (mod 256). -/
theorem claim_C10_processed_bookkeeping :
    (∀ (arb : Nat → Nat → Nat) (p : Option (List Nat)) (st : gameinfo_t),
      (commit_guess arb p st).2.2.round = (st.round + 1) % 256 ∧
      (commit_guess arb p st).2.2.processed =
        st.processed ++ [((commit_guess arb p st).2.2.guess,
          RED (respAt arb st.round (commit_guess arb p st).2.2.guess 0))]) ∧
    (∀ (arb : Nat → Nat → Nat) (st : gameinfo_t), st.round < 256 →
      ∃ L : List (Nat × Nat),
        (analyse_partitions arb st).2.processed = st.processed ++ L ∧
        (analyse_partitions arb st).2.round = (st.round + L.length) % 256 ∧
        ∀ i, i < L.length →
          (L.getD i (0, 0)).2 = RED (respAt arb st.round (L.getD i (0, 0)).1 i)) ∧
    (∀ (arb : Nat → Nat → Nat) (st : gameinfo_t), st.round < 256 →
      ∃ L : List (Nat × Nat),
        (analyse_colors arb st).2.processed = st.processed ++ L ∧
        (analyse_colors arb st).2.round = (st.round + L.length) % 256 ∧
        ∀ i, i < L.length →
          (L.getD i (0, 0)).2 = RED (respAt arb st.round (L.getD i (0, 0)).1 i)) ∧
    (∀ (arb : Nat → Nat → Nat) (st : gameinfo_t), st.round < 256 →
      ∀ r st', analyse_combinations arb st = some (r, st') →
      ∃ L : List (Nat × Nat),
        st'.processed = st.processed ++ L ∧
        st'.round = (st.round + L.length) % 256 ∧
        ∀ i, i < L.length →
          (L.getD i (0, 0)).2 = RED (respAt arb st.round (L.getD i (0, 0)).1 i)) ∧
    (∀ (arb : Nat → Nat → Nat) (r : Nat) (st' : gameinfo_t),
      start_game arb = some (r, st') →
      st'.round = st'.processed.length % 256 ∧
      ∀ i, i < st'.processed.length →
        (st'.processed.getD i (0, 0)).2 =
          RED (respAt arb 0 (st'.processed.getD i (0, 0)).1 i)) := by
  refine ⟨?_, ?_, ?_, ?_, ?_⟩
  · intro arb p st
    obtain ⟨-, h2, h3⟩ := RunSpec_commit_step arb p st
    exact ⟨h2, h3⟩
  · intro arb st hround
    obtain ⟨L, h1, h2, h3, -⟩ := partitionsLoop_run arb 3 0 false st hround
    exact ⟨L, h1, h2, h3⟩
  · intro arb st hround
    obtain ⟨L, h1, h2, h3, -⟩ := analyse_colors_run arb st hround
    exact ⟨L, h1, h2, h3⟩
  · intro arb st hround r st' heq
    obtain ⟨L, h1, h2, h3, -⟩ := analyse_combinations_run arb st hround r st' heq
    exact ⟨L, h1, h2, h3⟩
  · intro arb r st' heq
    obtain ⟨L, h1, h2, h3, -⟩ := start_game_run arb r st' heq
    have hL : st'.processed = L := by
      rw [h1]
      rfl
    constructor
    · rw [h2, hL]
      show (0 + L.length) % 256 = L.length % 256
      omega
    · intro i hi
      rw [hL] at hi ⊢
      exact h3 i hi
